import Mathlib

/-!
# Shallow embedding of `fairseq2/nn/transformer/decoder.py`

This file models `StandardTransformerDecoder` (construction and forward pass)
from `src/fairseq2/nn/transformer/decoder.py` and proves the specification
claims about it.

Modelling conventions:
* Tensors are nested lists over `ℚ` (floating point is modelled by exact
  rationals).  A hidden-state tensor has shape batch x seq x width and is
  represented by `T3 := List (List (List ℚ))`; a token tensor has shape
  batch x seq and is represented by `List (List ℤ)`.
* External collaborators (the embedding table, positional embedding, decoder
  layers, the attention-mask generator, `torch.nn.LayerNorm`, `nn.Linear`,
  `math.sqrt`) live outside the source file and are modelled as opaque
  function-valued fields / factory parameters, exactly as the decoder
  consumes them through their contracts.
* The incremental state bag is an opaque type parameter `S`.  A decoder layer
  call `layer(x, ..., state_bag)` returns a tensor and, when a bag is present,
  mutates it in place; this is modelled by two functions `fwd` (the returned
  tensor) and `mutate` (the in-place update of the bag contents).  A `None` bag
  can never become non-`None` (Python reference semantics).
* Python exceptions are modelled by `Except String`.
* Ambient randomness (layer-drop uniform draws, the dropout pattern sampled by
  `F.dropout` in training mode) is passed to `forward` explicitly.
-/

/-- A floating-point value: either the `-inf` sentinel used by float masks or a
finite value. -/
inductive FVal where
  | negInf : FVal
  | fv : ℚ → FVal
deriving DecidableEq, Repr

/-- A tensor dtype tag (only identity/equality of dtypes matters to the
decoder). -/
inductive DType where
  | float32 : DType
  | float16 : DType
  | bfloat16 : DType
  | boolTag : DType
deriving DecidableEq, Repr

/-- A batch x seq x width tensor of floats. -/
abbrev T3 : Type := List (List (List ℚ))

/-- An attention mask as produced by an attention-mask generator. -/
abbrev AttnMask : Type := List (List FVal)

/-- A (padding) mask tensor: either boolean or float with a dtype, matching the
docstring of `TransformerDecoder.forward` which admits boolean and float key
padding masks. -/
inductive TensorMask where
  | boolM : List (List Bool) → TensorMask
  | floatM : DType → List (List FVal) → TensorMask
deriving DecidableEq, Repr

/-- Whether the mask marks (excludes) flat position `(i, j)`: a `True` entry of
a boolean mask, or a `-inf` entry of a float mask. -/
def TensorMask.marks : TensorMask → ℕ → ℕ → Bool
  | TensorMask.boolM rows, i, j => (rows[i]?.bind (fun r => r[j]?)) == some true
  | TensorMask.floatM _ rows, i, j => (rows[i]?.bind (fun r => r[j]?)) == some FVal.negInf

/-- `marks` lifted to an optional mask (`none` marks nothing). -/
def marksOpt (om : Option TensorMask) (i j : ℕ) : Bool :=
  (om.map (fun m => m.marks i j)).getD false

/-- Whether a mask is a float mask of the given dtype. -/
def TensorMask.isFloatWithDtype : TensorMask → DType → Bool
  | TensorMask.boolM _, _ => false
  | TensorMask.floatM dt _, dt' => dt == dt'

/-- Modelled from the spec: `fairseq2.nn.utils.to_float_mask` (not under
`src/`): converts a boolean mask into a float mask of the given dtype whose
marked entries hold `-inf` (to be added to attention weights, per the
`TransformerDecoder.forward` docstring) and whose unmarked entries hold `0`. -/
def to_float_mask (m : List (List Bool)) (dtype : DType) : TensorMask :=
  TensorMask.floatM dtype (m.map (fun r => r.map (fun b => if b then FVal.negInf else FVal.fv 0)))

/-- The embedding collaborator (`fairseq2.nn.embedding.Embedding`), consumed
through its contract: an embedding width, an optional padding index, the dtype
of its weight tensor, and the lookup function applied to a token tensor. -/
structure Embedding where
  embedding_dim : ℕ
  padding_idx : Option ℤ
  weight_dtype : DType
  run : List (List ℤ) → T3

/-- The positional embedding collaborator
(`fairseq2.nn.positional_embedding.PositionalEmbedding`), consumed through its
contract: an embedding width and an application function aware of an optional
incremental state bag. -/
structure PositionalEmbedding (S : Type) where
  embedding_dim : ℕ
  run : T3 → Option S → T3

/-- The decoder-layer collaborator
(`fairseq2.nn.transformer.decoder_layer.TransformerDecoderLayer`), consumed
through its contract.  A Python call `layer(x, self_attn_mask,
self_attn_padding_mask, enc_out, enc_padding_mask, state_bag)` returns a
tensor and mutates the supplied bag in place; `fwd` is the returned tensor and
`mutate` the new contents of the bag when one is supplied. -/
structure TransformerDecoderLayer (S : Type) where
  model_dim : ℕ
  fwd : T3 → Option AttnMask → Option TensorMask → Option T3 → Option TensorMask → Option S → T3
  mutate : T3 → Option AttnMask → Option TensorMask → Option T3 → Option TensorMask → S → S

/-- Modelled from the spec: `fairseq2.nn.module_list.ModuleList` (not under
`src/`): an ordered module container with a LayerDrop probability. -/
structure ModuleList (S : Type) where
  modules : List (TransformerDecoderLayer S)
  drop_p : ℚ

/-- Modelled from the spec: iteration over a `ModuleList` (not under `src/`).
During training each layer is skipped independently with probability `drop_p`
(here: layer `i` is skipped when the pre-drawn uniform sample `rng i` falls
below `drop_p`); outside training the drop probability is forced to `0` and
every module is yielded. -/
def ModuleList.iter {S : Type} (ml : ModuleList S) (training : Bool) (rng : ℕ → ℚ) :
    List (TransformerDecoderLayer S) :=
  if training = true ∧ 0 < ml.drop_p then
    (ml.modules.enum).filterMap (fun p => if rng p.1 < ml.drop_p then none else some p.2)
  else
    ml.modules

/-- Modelled from the spec: `fairseq2.nn.transformer.norm_order.TransformerNormOrder`
(not under `src/`): the Layer Normalization placement, one of POST, PRE,
PRE_FINAL. -/
inductive TransformerNormOrder where
  | POST : TransformerNormOrder
  | PRE : TransformerNormOrder
  | PRE_FINAL : TransformerNormOrder
deriving DecidableEq, Repr

/-- An internal dimension-adapter module (`InternalDimProjection` in the
source): a linear projection with bias from `inp_dim` to `out_dim`; the learned
transformation itself is an opaque function. -/
structure InternalDimProjection where
  inp_dim : ℕ
  out_dim : ℕ
  apply : T3 → T3

/-- The external library surface used by the constructor: `math.sqrt`,
the `torch.nn.LayerNorm` factory (fresh parameters for a given width and
epsilon), the `nn.Linear`-backed projection function created by
`InternalDimProjection` (Xavier-initialised weight, zero bias), and the default
`CausalAttentionMaskGenerator`. -/
structure ExternalFns where
  sqrt : ℕ → ℚ
  layerNorm : ℕ → ℚ → (T3 → T3)
  linear : ℕ → ℕ → (T3 → T3)
  causalMaskGen : T3 → AttnMask

/-- `InternalDimProjection.__init__`: stores the dimensions and creates the
projection function through the external linear-layer factory. -/
def InternalDimProjection.init (ext : ExternalFns) (inp_dim out_dim : ℕ) :
    InternalDimProjection :=
  { inp_dim := inp_dim, out_dim := out_dim, apply := ext.linear inp_dim out_dim }

/-- A Python iterable passed as the `layers` argument: its underlying items and
whether it is a one-shot iterator (e.g. a generator), in which case a second
traversal yields nothing. -/
structure PyIterable (α : Type) where
  items : List α
  oneShot : Bool

/-- The first traversal of the iterable (performed by `ModuleList(layers, ...)`). -/
def PyIterable.iterOnce {α : Type} (it : PyIterable α) : List α := it.items

/-- A second traversal of the same iterable object (performed by
`enumerate(layers)`): empty if the iterable is one-shot. -/
def PyIterable.iterAgain {α : Type} (it : PyIterable α) : List α :=
  if it.oneShot then [] else it.items

/-- `StandardTransformerDecoder`: the fields assigned by `__init__`, plus the
`training` flag inherited from `torch.nn.Module`.  Optional submodules are
`Option`-valued (`register_module(name, None)` in the source). -/
structure StandardTransformerDecoder (S : Type) where
  model_dim : ℕ
  embed : Embedding
  embed_scale : ℚ
  pos_embed : Option (PositionalEmbedding S)
  embed_norm : Option (T3 → T3)
  embed_dropout_p : ℚ
  inp_dim_proj : Option InternalDimProjection
  self_attn_mask_gen : T3 → AttnMask
  layers : ModuleList S
  layer_norm : Option (T3 → T3)
  out_dim_proj : Option InternalDimProjection
  training : Bool

/-- The error message raised for an empty layer stack. -/
def emptyLayersMsg : String :=
  "`layers` must contain at least one decoder layer."

/-- The error message raised for a layer whose `model_dim` mismatches the first
layer's, naming the offending index. -/
def mismatchMsg (idx layerDim modelDim : ℕ) : String :=
  "`model_dim` of the decoder layer " ++ toString idx ++ " (" ++ toString layerDim ++
    ") does not match `model_dim` (" ++ toString modelDim ++ ")."

/-- The error message raised for a positional embedding whose width mismatches
the embedding width. -/
def posEmbedMsg (posDim embedDim : ℕ) : String :=
  "`embedding_dim` of `pos_embed` (" ++ toString posDim ++
    ") does not match `embedding_dim` of `embed` (" ++ toString embedDim ++ ")."

/-- The validation loop `for idx, layer in enumerate(layers): if layer.model_dim
!= model_dim: raise ValueError(...)` from `StandardTransformerDecoder.__init__`. -/
def checkLayers {S : Type} :
    List (TransformerDecoderLayer S) → ℕ → ℕ → Except String Unit
  | [], _, _ => Except.ok ()
  | l :: ls, idx, modelDim =>
      if l.model_dim ≠ modelDim then
        Except.error (mismatchMsg idx l.model_dim modelDim)
      else
        checkLayers ls (idx + 1) modelDim

/-- The field assignments of `StandardTransformerDecoder.__init__` performed
after all validation has passed. -/
def StandardTransformerDecoder.build {S : Type} (ext : ExternalFns) (embed : Embedding)
    (pos_embed : Option (PositionalEmbedding S)) (layer_list : ModuleList S)
    (model_dim : ℕ) (no_scale_embed : Bool) (norm_embed : Bool) (embed_dropout_p : ℚ)
    (self_attn_mask_gen : Option (T3 → AttnMask)) (norm_order : TransformerNormOrder)
    (norm_eps : ℚ) : StandardTransformerDecoder S :=
  { model_dim := model_dim
    embed := embed
    embed_scale := if no_scale_embed then 1 else ext.sqrt embed.embedding_dim
    pos_embed := pos_embed
    embed_norm := if norm_embed then some (ext.layerNorm embed.embedding_dim norm_eps) else none
    embed_dropout_p := embed_dropout_p
    inp_dim_proj :=
      if embed.embedding_dim ≠ model_dim then
        some (InternalDimProjection.init ext embed.embedding_dim model_dim)
      else none
    self_attn_mask_gen :=
      match self_attn_mask_gen with
      | some g => g
      | none => ext.causalMaskGen
    layers := layer_list
    layer_norm :=
      if norm_order ≠ TransformerNormOrder.POST then
        some (ext.layerNorm model_dim norm_eps)
      else none
    out_dim_proj :=
      if embed.embedding_dim ≠ model_dim then
        some (InternalDimProjection.init ext model_dim embed.embedding_dim)
      else none
    training := true }

/-- `StandardTransformerDecoder.__init__`: builds the `ModuleList` (consuming
the iterable once), validates that the stack is non-empty, takes `model_dim`
from the first layer, validates every layer of a second traversal of the
iterable against it, validates the positional embedding width, and assembles
the module. -/
def StandardTransformerDecoder.init {S : Type} (ext : ExternalFns) (embed : Embedding)
    (pos_embed : Option (PositionalEmbedding S))
    (layers : PyIterable (TransformerDecoderLayer S))
    (no_scale_embed : Bool) (norm_embed : Bool) (embed_dropout_p : ℚ)
    (self_attn_mask_gen : Option (T3 → AttnMask)) (layer_drop_p : ℚ)
    (norm_order : TransformerNormOrder) (norm_eps : ℚ) :
    Except String (StandardTransformerDecoder S) :=
  let layer_list : ModuleList S := { modules := layers.iterOnce, drop_p := layer_drop_p }
  match layer_list.modules with
  | [] => Except.error emptyLayersMsg
  | l0 :: _ =>
    match checkLayers layers.iterAgain 0 l0.model_dim with
    | Except.error e => Except.error e
    | Except.ok _ =>
      match pos_embed with
      | some pe =>
          if pe.embedding_dim ≠ embed.embedding_dim then
            Except.error (posEmbedMsg pe.embedding_dim embed.embedding_dim)
          else
            Except.ok (StandardTransformerDecoder.build ext embed (some pe) layer_list
              l0.model_dim no_scale_embed norm_embed embed_dropout_p self_attn_mask_gen
              norm_order norm_eps)
      | none =>
          Except.ok (StandardTransformerDecoder.build ext embed none layer_list
            l0.model_dim no_scale_embed norm_embed embed_dropout_p self_attn_mask_gen
            norm_order norm_eps)

/-- Elementwise tensor-scalar multiplication (`embed * self.embed_scale`). -/
def smulT3 (s : ℚ) (x : T3) : T3 :=
  x.map (fun r => r.map (fun v => v.map (fun q => s * q)))

/-- `torch.nn.functional.dropout(x, p, training)`: the identity outside
training mode; in training mode it applies the sampled dropout transformation
`fdrop` (the ambient randomness of the call). -/
def Fdropout (fdrop : T3 → T3) (training : Bool) (x : T3) : T3 :=
  if training then fdrop x else x

/-- `self._get_self_attn_padding_mask(seq)`: if the embedding has a padding
index, the elementwise equality mask of `seq` against it converted to a float
mask in the dtype of the embedding weight; otherwise `None`. -/
def StandardTransformerDecoder.get_self_attn_padding_mask {S : Type}
    (d : StandardTransformerDecoder S) (seq : List (List ℤ)) : Option TensorMask :=
  match d.embed.padding_idx with
  | some pidx =>
      some (to_float_mask (seq.map (fun r => r.map (fun tok => tok == pidx))) d.embed.weight_dtype)
  | none => none

/-- The statement `embed = embed * self.embed_scale` guarded by
`if self.embed_scale != 1.0`. -/
def StandardTransformerDecoder.scaleStage {S : Type} (d : StandardTransformerDecoder S)
    (x : T3) : T3 :=
  if d.embed_scale ≠ 1 then smulT3 d.embed_scale x else x

/-- The statement `embed = self.pos_embed(embed, state_bag)` guarded by
`if self.pos_embed is not None`. -/
def StandardTransformerDecoder.posStage {S : Type} (d : StandardTransformerDecoder S)
    (x : T3) (state_bag : Option S) : T3 :=
  match d.pos_embed with
  | some pe => pe.run x state_bag
  | none => x

/-- The statement `embed = self.embed_norm(embed)` guarded by
`if self.embed_norm is not None`. -/
def StandardTransformerDecoder.normStage {S : Type} (d : StandardTransformerDecoder S)
    (x : T3) : T3 :=
  match d.embed_norm with
  | some en => en x
  | none => x

/-- The statement `embed = F.dropout(embed, self.embed_dropout_p,
self.training)` guarded by `if self.embed_dropout_p > 0.0`. -/
def StandardTransformerDecoder.dropStage {S : Type} (d : StandardTransformerDecoder S)
    (fdrop : T3 → T3) (x : T3) : T3 :=
  if 0 < d.embed_dropout_p then Fdropout fdrop d.training x else x

/-- `self._forward_embed(seq, state_bag)`. -/
def StandardTransformerDecoder.forward_embed {S : Type} (d : StandardTransformerDecoder S)
    (fdrop : T3 → T3) (seq : List (List ℤ)) (state_bag : Option S) : T3 :=
  let embed := d.embed.run seq
  let embed := d.scaleStage embed
  let embed := d.posStage embed state_bag
  let embed := d.normStage embed
  let embed := d.dropStage fdrop embed
  embed

/-- The statement `x = self.inp_dim_proj(x)` of `forward`, guarded by
`if self.inp_dim_proj is not None`. -/
def StandardTransformerDecoder.inpStage {S : Type} (d : StandardTransformerDecoder S)
    (x : T3) : T3 :=
  match d.inp_dim_proj with
  | some p => p.apply x
  | none => x

/-- The statement `x = self.out_dim_proj(x)` of `forward`, guarded by
`if self.out_dim_proj is not None`. -/
def StandardTransformerDecoder.outStage {S : Type} (d : StandardTransformerDecoder S)
    (x : T3) : T3 :=
  match d.out_dim_proj with
  | some p => p.apply x
  | none => x

/-- The statement `x = self.layer_norm(x)` of `_forward_decoder_layers`,
guarded by `if self.layer_norm is not None`. -/
def StandardTransformerDecoder.lnStage {S : Type} (d : StandardTransformerDecoder S)
    (x : T3) : T3 :=
  match d.layer_norm with
  | some ln => ln x
  | none => x

/-- The mask construction of `_forward_decoder_layers`:
`self_attn_mask = None; if self.training or state_bag is None: self_attn_mask =
self.self_attn_mask_gen(x)`. -/
def StandardTransformerDecoder.self_attn_mask_of {S : Type}
    (d : StandardTransformerDecoder S) (x : T3) (state_bag : Option S) : Option AttnMask :=
  if d.training = true ∨ state_bag.isNone = true then some (d.self_attn_mask_gen x) else none

/-- The loop `for layer in self.layers: x = layer(x, self_attn_mask,
self_attn_padding_mask, enc_out, enc_padding_mask, state_bag)`: each executed
layer produces the next hidden state and, when a bag is supplied, mutates its
contents; a `None` bag stays `None`. -/
def runLayers {S : Type} :
    List (TransformerDecoderLayer S) → T3 → Option AttnMask → Option TensorMask →
      Option T3 → Option TensorMask → Option S → T3 × Option S
  | [], x, _, _, _, _, state_bag => (x, state_bag)
  | l :: ls, x, m, pm, enc_out, enc_pm, state_bag =>
      runLayers ls (l.fwd x m pm enc_out enc_pm state_bag) m pm enc_out enc_pm
        (state_bag.map (l.mutate x m pm enc_out enc_pm))

/-- `self._forward_decoder_layers(x, self_attn_padding_mask, enc_out,
enc_padding_mask, state_bag)`. -/
def StandardTransformerDecoder.forward_decoder_layers {S : Type}
    (d : StandardTransformerDecoder S) (rng : ℕ → ℚ) (x : T3)
    (self_attn_padding_mask : Option TensorMask) (enc_out : Option T3)
    (enc_padding_mask : Option TensorMask) (state_bag : Option S) : T3 × Option S :=
  let self_attn_mask := d.self_attn_mask_of x state_bag
  let r := runLayers (d.layers.iter d.training rng) x self_attn_mask
    self_attn_padding_mask enc_out enc_padding_mask state_bag
  (d.lnStage r.1, r.2)

/-- `StandardTransformerDecoder.forward`.  The returned pair is the output
tensor together with the final contents of the caller-supplied incremental
state bag (the only externally visible mutation). -/
def StandardTransformerDecoder.forward {S : Type} (d : StandardTransformerDecoder S)
    (rng : ℕ → ℚ) (fdrop : T3 → T3) (seq : List (List ℤ)) (enc_out : Option T3)
    (enc_padding_mask : Option TensorMask) (state_bag : Option S) : T3 × Option S :=
  let self_attn_padding_mask := d.get_self_attn_padding_mask seq
  let x := d.forward_embed fdrop seq state_bag
  let x := d.inpStage x
  let r := d.forward_decoder_layers rng x self_attn_padding_mask enc_out
    enc_padding_mask state_bag
  (d.outStage r.1, r.2)

/-! ## Concrete collaborator instances used by witnesses and counterexamples -/

/-- A decoder layer of the given width whose forward is the identity and whose
state mutation is a no-op. -/
def layerDim (n : ℕ) : TransformerDecoderLayer Unit :=
  { model_dim := n
    fwd := fun x _ _ _ _ _ => x
    mutate := fun _ _ _ _ _ s => s }

/-- A concrete embedding of width 2 with padding index 0. -/
def embed0 : Embedding :=
  { embedding_dim := 2
    padding_idx := some 0
    weight_dtype := DType.float32
    run := fun s => s.map (fun r => r.map (fun (tok : ℤ) => ([(tok : ℚ), (tok : ℚ)] : List ℚ))) }

/-- A concrete decoder in evaluation mode with a positive LayerDrop
probability. -/
def cdec0 : StandardTransformerDecoder Unit :=
  { model_dim := 2
    embed := embed0
    embed_scale := 1
    pos_embed := none
    embed_norm := none
    embed_dropout_p := 0
    inp_dim_proj := none
    self_attn_mask_gen := fun _ => [[FVal.fv 0]]
    layers := { modules := [layerDim 2], drop_p := 1/2 }
    layer_norm := none
    out_dim_proj := none
    training := false }

/-! ## C3: self-attention mask construction policy -/

/-- C3: in every forward pass the self-attention mask is constructed by
invoking the mask generator if and only if the module is training or no
incremental state bag is supplied; otherwise the mask handed to the layer loop
is `None`. -/
theorem claim_c3_mask_policy {S : Type} (d : StandardTransformerDecoder S)
    (rng : ℕ → ℚ) (x : T3) (pm : Option TensorMask) (eo : Option T3)
    (epm : Option TensorMask) (bag : Option S) :
    (d.training = true ∨ bag = none →
      d.self_attn_mask_of x bag = some (d.self_attn_mask_gen x)) ∧
    (d.training = false ∧ bag ≠ none → d.self_attn_mask_of x bag = none) ∧
    d.forward_decoder_layers rng x pm eo epm bag =
      (d.lnStage (runLayers (d.layers.iter d.training rng) x (d.self_attn_mask_of x bag)
          pm eo epm bag).1,
        (runLayers (d.layers.iter d.training rng) x (d.self_attn_mask_of x bag)
          pm eo epm bag).2) := by
  refine ⟨?_, ?_, rfl⟩
  · intro h
    unfold StandardTransformerDecoder.self_attn_mask_of
    rw [if_pos]
    rcases h with h | h
    · exact Or.inl h
    · exact Or.inr (by simp [h])
  · rintro ⟨h1, h2⟩
    unfold StandardTransformerDecoder.self_attn_mask_of
    rw [if_neg]
    rintro (h | h)
    · rw [h1] at h
      exact Bool.noConfusion h
    · rcases Option.isNone_iff_eq_none.mp h with h
      exact h2 h

/-- Witness for C3: at inference with no bag the generator is invoked, with a
bag present the layers receive `None`. -/
theorem claim_c3_mask_policy_witness :
    cdec0.self_attn_mask_of [[[1]]] none = some (cdec0.self_attn_mask_gen [[[1]]]) ∧
    cdec0.self_attn_mask_of [[[1]]] (some ()) = none :=
  ⟨(claim_c3_mask_policy cdec0 (fun _ => 0) [[[1]]] none none none none).1 (Or.inr rfl),
   (claim_c3_mask_policy cdec0 (fun _ => 0) [[[1]]] none none none (some ())).2.1
     ⟨rfl, by simp⟩⟩

/-! ## C5: padding mask derivation -/

/-- C5: whenever a padding index is configured, the derived padding mask marks
exactly the positions of the input sequence holding that index; with no
padding index configured no mask is computed at all. -/
theorem claim_c5_padding_mask {S : Type} (d : StandardTransformerDecoder S)
    (seq : List (List ℤ)) :
    (∀ p : ℤ, d.embed.padding_idx = some p → ∀ i j : ℕ,
      (marksOpt (d.get_self_attn_padding_mask seq) i j = true ↔
        seq[i]?.bind (fun r => r[j]?) = some p)) ∧
    (d.embed.padding_idx = none → d.get_self_attn_padding_mask seq = none) := by
  constructor
  · intro p hp i j
    simp only [StandardTransformerDecoder.get_self_attn_padding_mask, hp, marksOpt,
      to_float_mask, TensorMask.marks, Option.map_some', Option.getD_some, List.map_map]
    rw [List.getElem?_map]
    cases hs : seq[i]? with
    | none => simp
    | some r =>
        simp only [Option.map_some', Function.comp_apply, Option.some_bind, List.map_map,
          List.getElem?_map]
        cases hr : r[j]? with
        | none => simp
        | some tok =>
            simp only [Option.map_some', Function.comp_apply]
            by_cases h : tok = p
            · simp [h]
            · simp [h]
  · intro hp
    simp [StandardTransformerDecoder.get_self_attn_padding_mask, hp]

/-- Witness for C5 at a concrete decoder with padding index 0 and input
`[[0, 5]]`: position (0,0) is marked, position (0,1) is not. -/
theorem claim_c5_padding_mask_witness :
    marksOpt (cdec0.get_self_attn_padding_mask [[0, 5]]) 0 0 = true ∧
    marksOpt (cdec0.get_self_attn_padding_mask [[0, 5]]) 0 1 = false := by
  have h := (claim_c5_padding_mask cdec0 [[0, 5]]).1 0 rfl
  refine ⟨(h 0 0).mpr (by decide), ?_⟩
  cases hm : marksOpt (cdec0.get_self_attn_padding_mask [[0, 5]]) 0 1 with
  | false => rfl
  | true => exact absurd ((h 0 1).mp hm) (by decide)

/-! ## C8: determinism at inference despite LayerDrop -/

/-- C8: with training mode off, `forward` does not depend on the layer-drop
randomness nor on the dropout randomness: LayerDrop is disabled (no layer is
stochastically skipped) and dropout is a no-op, so repeated calls on the same
input and state produce identical outputs even when `layer_drop_p > 0`. -/
theorem claim_c8_inference_determinism {S : Type} (d : StandardTransformerDecoder S)
    (h : d.training = false) (rng1 rng2 : ℕ → ℚ) (fdrop1 fdrop2 : T3 → T3)
    (seq : List (List ℤ)) (eo : Option T3) (epm : Option TensorMask) (bag : Option S) :
    d.forward rng1 fdrop1 seq eo epm bag = d.forward rng2 fdrop2 seq eo epm bag := by
  unfold StandardTransformerDecoder.forward StandardTransformerDecoder.forward_decoder_layers
    StandardTransformerDecoder.forward_embed StandardTransformerDecoder.dropStage
    Fdropout ModuleList.iter
  simp [h]

/-- Witness for C8: a concrete inference-mode decoder with `layer_drop_p = 1/2`
produces the same output under two different random draws. -/
theorem claim_c8_inference_determinism_witness :
    cdec0.forward (fun _ => 0) id [[1, 2]] none none none =
      cdec0.forward (fun _ => 1) (fun _ => []) [[1, 2]] none none none :=
  claim_c8_inference_determinism cdec0 rfl (fun _ => 0) (fun _ => 1) id (fun _ => [])
    [[1, 2]] none none none

/-! ## C9: forward has no side effects on the module -/

/-- `forward` with the module value threaded explicitly through every step of
the source, so that an assignment to any `self.` field along the forward path
would surface as a changed module value; the source assigns only to locals. -/
def StandardTransformerDecoder.forwardMut {S : Type} (d : StandardTransformerDecoder S)
    (rng : ℕ → ℚ) (fdrop : T3 → T3) (seq : List (List ℤ)) (enc_out : Option T3)
    (enc_padding_mask : Option TensorMask) (state_bag : Option S) :
    T3 × StandardTransformerDecoder S × Option S :=
  let s1 := (d.get_self_attn_padding_mask seq, d)
  let s2 := (s1.2.forward_embed fdrop seq state_bag, s1.2)
  let s3 := (s2.2.inpStage s2.1, s2.2)
  let s4 := (s3.2.forward_decoder_layers rng s3.1 s1.1 enc_out enc_padding_mask state_bag, s3.2)
  let s5 := (s4.2.outStage s4.1.1, s4.2)
  (s5.1, s5.2, s4.1.2)

/-- C9: a forward call leaves every field of the module unchanged, its output
and bag mutation agree with the pure forward function, the padding mask is a
function of the current input and the immutable embedding configuration alone
(never of any stored state), and a repeated call on the post-call module value
behaves identically — the only externally visible mutation is the returned
state-bag contents. -/
theorem claim_c9_no_module_side_effects {S : Type} (d : StandardTransformerDecoder S)
    (rng : ℕ → ℚ) (fdrop : T3 → T3) (seq : List (List ℤ)) (eo : Option T3)
    (epm : Option TensorMask) (bag : Option S) :
    (d.forwardMut rng fdrop seq eo epm bag).2.1 = d ∧
    (d.forwardMut rng fdrop seq eo epm bag).1 = (d.forward rng fdrop seq eo epm bag).1 ∧
    (d.forwardMut rng fdrop seq eo epm bag).2.2 = (d.forward rng fdrop seq eo epm bag).2 ∧
    (∀ d' : StandardTransformerDecoder S,
      d'.embed.padding_idx = d.embed.padding_idx →
      d'.embed.weight_dtype = d.embed.weight_dtype →
      d'.get_self_attn_padding_mask seq = d.get_self_attn_padding_mask seq) ∧
    ((d.forwardMut rng fdrop seq eo epm bag).2.1.forward rng fdrop seq eo epm bag =
      d.forward rng fdrop seq eo epm bag) := by
  refine ⟨rfl, rfl, rfl, ?_, rfl⟩
  intro d' h1 h2
  unfold StandardTransformerDecoder.get_self_attn_padding_mask
  rw [h1, h2]

/-- Witness for C9 at a concrete decoder and input. -/
theorem claim_c9_no_module_side_effects_witness :
    (cdec0.forwardMut (fun _ => 0) id [[0]] none none none).2.1 = cdec0 ∧
    cdec0.get_self_attn_padding_mask [[0]] = cdec0.get_self_attn_padding_mask [[0]] :=
  ⟨(claim_c9_no_module_side_effects cdec0 (fun _ => 0) id [[0]] none none none).1,
   (claim_c9_no_module_side_effects cdec0 (fun _ => 0) id [[0]] none none none).2.2.2.1
     cdec0 rfl rfl⟩

/-! ## C10: the padding mask is a float mask in the embedding weight's dtype -/

/-- C10: whenever a padding index is configured, the padding mask handed to the
layers is a float mask in the dtype of the embedding weight, never a boolean
mask. -/
theorem claim_c10_float_padding_mask {S : Type} (d : StandardTransformerDecoder S)
    (seq : List (List ℤ)) (p : ℤ) (hp : d.embed.padding_idx = some p) :
    ((d.get_self_attn_padding_mask seq).map
        (fun m => m.isFloatWithDtype d.embed.weight_dtype)).getD false = true := by
  simp [StandardTransformerDecoder.get_self_attn_padding_mask, hp, to_float_mask,
    TensorMask.isFloatWithDtype]

/-- Witness for C10 at a concrete decoder with padding index 0. -/
theorem claim_c10_float_padding_mask_witness :
    ((cdec0.get_self_attn_padding_mask [[0, 3]]).map
        (fun m => m.isFloatWithDtype cdec0.embed.weight_dtype)).getD false = true :=
  claim_c10_float_padding_mask cdec0 [[0, 3]] 0 rfl

/-! ## Construction lemmas shared by C2, C4, C6, C7 -/

/-- If every layer matches the reference width, the validation loop passes. -/
theorem checkLayers_ok {S : Type} (ls : List (TransformerDecoderLayer S)) (md : ℕ)
    (h : ∀ l ∈ ls, l.model_dim = md) : ∀ idx, checkLayers ls idx md = Except.ok () := by
  induction ls with
  | nil => intro idx; rfl
  | cons l ls ih =>
      intro idx
      unfold checkLayers
      rw [if_neg (not_not_intro (h l (List.mem_cons_self l ls)))]
      exact ih (fun x hx => h x (List.mem_cons_of_mem _ hx)) (idx + 1)

/-- If some layer mismatches the reference width, the validation loop raises
the mismatch error naming that layer's index. -/
theorem checkLayers_error {S : Type} (ls : List (TransformerDecoderLayer S)) (md : ℕ)
    (h : ∃ l ∈ ls, l.model_dim ≠ md) :
    ∀ idx, ∃ j lj, ls[j]? = some lj ∧ lj.model_dim ≠ md ∧
      checkLayers ls idx md = Except.error (mismatchMsg (idx + j) lj.model_dim md) := by
  induction ls with
  | nil =>
      intro idx
      rcases h with ⟨l, hl, _⟩
      exact absurd hl (List.not_mem_nil l)
  | cons l ls ih =>
      intro idx
      by_cases hl : l.model_dim ≠ md
      · refine ⟨0, l, by simp, hl, ?_⟩
        unfold checkLayers
        rw [if_pos hl, Nat.add_zero]
      · have hmem : ∃ x ∈ ls, x.model_dim ≠ md := by
          rcases h with ⟨x, hx, hxd⟩
          rcases List.mem_cons.mp hx with rfl | hx'
          · exact absurd hxd hl
          · exact ⟨x, hx', hxd⟩
        rcases ih hmem (idx + 1) with ⟨j, lj, hj, hjd, hrec⟩
        refine ⟨j + 1, lj, by simpa using hj, hjd, ?_⟩
        unfold checkLayers
        rw [if_neg hl, hrec]
        have harith : idx + 1 + j = idx + (j + 1) := by omega
        rw [harith]

/-- Inversion of a successful construction: the layer iterable was non-empty
on its first traversal and the resulting module is the assembled record with
`model_dim` taken from the first layer. -/
theorem init_ok_elim {S : Type} (ext : ExternalFns) (embed : Embedding)
    (pe : Option (PositionalEmbedding S)) (layers : PyIterable (TransformerDecoderLayer S))
    (nse ne : Bool) (edp : ℚ) (amg : Option (T3 → AttnMask)) (ldp : ℚ)
    (no : TransformerNormOrder) (neps : ℚ) (d : StandardTransformerDecoder S)
    (h : StandardTransformerDecoder.init ext embed pe layers nse ne edp amg ldp no neps =
      Except.ok d) :
    ∃ l0 rest, layers.items = l0 :: rest ∧
      d = StandardTransformerDecoder.build ext embed pe
        { modules := layers.items, drop_p := ldp } l0.model_dim nse ne edp amg no neps := by
  unfold StandardTransformerDecoder.init at h
  simp only [PyIterable.iterOnce] at h
  cases hit : layers.items with
  | nil =>
      rw [hit] at h
      exact absurd h (by simp)
  | cons l0 rest =>
      rw [hit] at h
      refine ⟨l0, rest, rfl, ?_⟩
      simp only [] at h
      cases hc : checkLayers layers.iterAgain 0 l0.model_dim with
      | error e =>
          rw [hc] at h
          exact absurd h (by simp)
      | ok u =>
          rw [hc] at h
          cases pe with
          | none =>
              simp only [Except.ok.injEq] at h
              exact h.symm
          | some pe0 =>
              simp only [] at h
              by_cases hpe : pe0.embedding_dim ≠ embed.embedding_dim
              · rw [if_pos hpe] at h
                exact absurd h (by simp)
              · rw [if_neg hpe] at h
                simp only [Except.ok.injEq] at h
                exact h.symm

/-- Concrete external functions for witnesses: a stand-in square root, an
identity layer norm, a sum-then-replicate linear map, and a trivial mask
generator. -/
def extC : ExternalFns :=
  { sqrt := fun n => (n : ℚ)
    layerNorm := fun _ _ x => x
    linear := fun _ o x => x.map (fun r => r.map (fun v => List.replicate o (v.foldl (fun a b => a + b) 0)))
    causalMaskGen := fun _ => [[FVal.fv 0]] }

/-! ## C2: construction-time validation -/

/-- C2 (amended): constructing with an empty layer collection raises the
empty-stack error for every iterable; constructing from a multi-pass iterable
(e.g. a list) containing a layer whose `model_dim` differs from the first
layer's raises a construction error naming the offending layer's index; and a
positional encoder whose width differs from the embedding width raises the
width-mismatch error whenever the layer validation passes.  (A one-shot
iterator defeats the layer width check, see the counterexample.) -/
theorem claim_c2_construction_validation {S : Type} (ext : ExternalFns) (embed : Embedding)
    (pe : Option (PositionalEmbedding S)) (layers : PyIterable (TransformerDecoderLayer S))
    (nse ne : Bool) (edp : ℚ) (amg : Option (T3 → AttnMask)) (ldp : ℚ)
    (no : TransformerNormOrder) (neps : ℚ) :
    (layers.items = [] →
      StandardTransformerDecoder.init ext embed pe layers nse ne edp amg ldp no neps =
        Except.error emptyLayersMsg) ∧
    (∀ l0 rest, layers.oneShot = false → layers.items = l0 :: rest →
      (∃ l ∈ layers.items, l.model_dim ≠ l0.model_dim) →
      ∃ j lj, layers.items[j]? = some lj ∧ lj.model_dim ≠ l0.model_dim ∧
        StandardTransformerDecoder.init ext embed pe layers nse ne edp amg ldp no neps =
          Except.error (mismatchMsg j lj.model_dim l0.model_dim)) ∧
    (∀ pe0 l0 rest, pe = some pe0 → layers.items = l0 :: rest →
      (∀ l ∈ layers.iterAgain, l.model_dim = l0.model_dim) →
      pe0.embedding_dim ≠ embed.embedding_dim →
      StandardTransformerDecoder.init ext embed pe layers nse ne edp amg ldp no neps =
        Except.error (posEmbedMsg pe0.embedding_dim embed.embedding_dim)) := by
  refine ⟨?_, ?_, ?_⟩
  · intro hit
    unfold StandardTransformerDecoder.init
    simp only [PyIterable.iterOnce]
    rw [hit]
  · intro l0 rest hos hit hex
    have hAgain : layers.iterAgain = layers.items := by
      unfold PyIterable.iterAgain
      rw [hos]
      simp
    rcases checkLayers_error layers.items l0.model_dim hex 0 with ⟨j, lj, hj, hjd, hchk⟩
    refine ⟨j, lj, hj, hjd, ?_⟩
    unfold StandardTransformerDecoder.init
    simp only [PyIterable.iterOnce]
    rw [hit]
    simp only []
    rw [hAgain, hchk]
    simp only []
    rw [Nat.zero_add]
  · intro pe0 l0 rest hpe hit hall hne
    have hchk : checkLayers layers.iterAgain 0 l0.model_dim = Except.ok () :=
      checkLayers_ok layers.iterAgain l0.model_dim hall 0
    unfold StandardTransformerDecoder.init
    simp only [PyIterable.iterOnce]
    rw [hit, hpe]
    simp only []
    rw [hchk]
    simp only []
    rw [if_pos hne]

/-- The decoder produced from a ONE-SHOT iterator of two width-mismatched
layers (widths 4 and 8). -/
def c2dec : StandardTransformerDecoder Unit :=
  StandardTransformerDecoder.build extC embed0 none
    { modules := [layerDim 4, layerDim 8], drop_p := 0 } 4 false false 0 none
    TransformerNormOrder.POST 1

/-- Counterexample for C2 as stated: passing a one-shot iterator (a generator)
holding two layers of mismatched widths, construction SUCCEEDS — the second
traversal of the exhausted iterator is empty, so the width check inspects no
layer, although layer 1 has width 8 while layer 0 has width 4. -/
theorem claim_c2_counterexample :
    StandardTransformerDecoder.init (S := Unit) extC embed0 none
        { items := [layerDim 4, layerDim 8], oneShot := true } false false 0 none 0
        TransformerNormOrder.POST 1 = Except.ok c2dec ∧
    (layerDim 8).model_dim ≠ (layerDim 4).model_dim :=
  ⟨rfl, by decide⟩

/-- A positional embedding of width 3 used in the C2 witness. -/
def posEmb3 : PositionalEmbedding Unit :=
  { embedding_dim := 3, run := fun x _ => x }

/-- Witness for C2 (amended): the empty-stack error, the mismatch error with
its index, and the positional-encoder width error, at concrete inputs. -/
theorem claim_c2_construction_validation_witness :
    (StandardTransformerDecoder.init (S := Unit) extC embed0 none
        { items := [], oneShot := false } false false 0 none 0
        TransformerNormOrder.POST 1 = Except.error emptyLayersMsg) ∧
    (∃ j lj,
      (PyIterable.mk [layerDim 4, layerDim 8] false).items[j]? = some lj ∧
      lj.model_dim ≠ (layerDim 4).model_dim ∧
      StandardTransformerDecoder.init (S := Unit) extC embed0 none
          { items := [layerDim 4, layerDim 8], oneShot := false } false false 0 none 0
          TransformerNormOrder.POST 1 =
        Except.error (mismatchMsg j lj.model_dim (layerDim 4).model_dim)) ∧
    (StandardTransformerDecoder.init (S := Unit) extC embed0 (some posEmb3)
        { items := [layerDim 4], oneShot := false } false false 0 none 0
        TransformerNormOrder.POST 1 =
      Except.error (posEmbedMsg posEmb3.embedding_dim embed0.embedding_dim)) := by
  refine ⟨?_, ?_, ?_⟩
  · exact (claim_c2_construction_validation (S := Unit) extC embed0 none
      { items := [], oneShot := false } false false 0 none 0
      TransformerNormOrder.POST 1).1 rfl
  · exact (claim_c2_construction_validation (S := Unit) extC embed0 none
      { items := [layerDim 4, layerDim 8], oneShot := false } false false 0 none 0
      TransformerNormOrder.POST 1).2.1 (layerDim 4) [layerDim 8] rfl rfl
      ⟨layerDim 8, List.mem_cons_of_mem _ (List.mem_cons_self _ _), by decide⟩
  · exact (claim_c2_construction_validation (S := Unit) extC embed0 (some posEmb3)
      { items := [layerDim 4], oneShot := false } false false 0 none 0
      TransformerNormOrder.POST 1).2.2 posEmb3 (layerDim 4) [] rfl rfl
      (by
        intro l hl
        simp [PyIterable.iterAgain] at hl
        rw [hl])
      (by decide)

/-- Multiplying a tensor by the scalar `1` is the identity. -/
theorem smulT3_one (x : T3) : smulT3 1 x = x := by
  simp [smulT3]

/-! ## C6: embedding scale -/

/-- C6: for every successful construction the embedding scale is `1` when
`no_scale_embed` is set and `math.sqrt(embedding_dim)` otherwise, and the
embed path equals an unconditional single multiplication by `embed_scale`
applied before the positional encoder's contribution (so with scale `1` the
embeddings reach the positional encoder unscaled). -/
theorem claim_c6_embed_scale {S : Type} (ext : ExternalFns) (embed : Embedding)
    (pe : Option (PositionalEmbedding S)) (layers : PyIterable (TransformerDecoderLayer S))
    (nse ne : Bool) (edp : ℚ) (amg : Option (T3 → AttnMask)) (ldp : ℚ)
    (no : TransformerNormOrder) (neps : ℚ) (d : StandardTransformerDecoder S)
    (h : StandardTransformerDecoder.init ext embed pe layers nse ne edp amg ldp no neps =
      Except.ok d) :
    d.embed_scale = (if nse = true then 1 else ext.sqrt embed.embedding_dim) ∧
    ∀ (fdrop : T3 → T3) (seq : List (List ℤ)) (bag : Option S),
      d.forward_embed fdrop seq bag =
        d.dropStage fdrop (d.normStage (d.posStage (smulT3 d.embed_scale (d.embed.run seq)) bag)) := by
  obtain ⟨l0, rest, hit, hd⟩ :=
    init_ok_elim ext embed pe layers nse ne edp amg ldp no neps d h
  constructor
  · rw [hd]
    rfl
  · intro fdrop seq bag
    show d.dropStage fdrop (d.normStage (d.posStage (d.scaleStage (d.embed.run seq)) bag)) = _
    unfold StandardTransformerDecoder.scaleStage
    by_cases hs : d.embed_scale ≠ 1
    · rw [if_pos hs]
    · rw [if_neg hs]
      push_neg at hs
      rw [hs, smulT3_one]

/-- The decoder used by the C6 and C7 witnesses: embedding width 2, model
width 2. -/
def c6dec : StandardTransformerDecoder Unit :=
  StandardTransformerDecoder.build extC embed0 none
    { modules := [layerDim 2], drop_p := 0 } 2 false false 0 none
    TransformerNormOrder.POST 1

/-- Witness for C6 at a concrete construction. -/
theorem claim_c6_embed_scale_witness :
    c6dec.embed_scale = extC.sqrt embed0.embedding_dim ∧
    c6dec.forward_embed id [[1]] none =
      c6dec.dropStage id
        (c6dec.normStage (c6dec.posStage (smulT3 c6dec.embed_scale (c6dec.embed.run [[1]])) none)) := by
  have h := claim_c6_embed_scale (S := Unit) extC embed0 none
    { items := [layerDim 2], oneShot := false } false false 0 none 0
    TransformerNormOrder.POST 1 c6dec rfl
  exact ⟨by rw [h.1]; rfl, h.2 id [[1]] none⟩

/-! ## C7: dimension adapters exist iff the widths differ -/

/-- C7: after a successful construction the input and output dimension
adapters exist if and only if the embedding width differs from `model_dim`;
when the widths agree neither adapter is instantiated and `forward` applies no
dimension projection at all. -/
theorem claim_c7_dim_adapters {S : Type} (ext : ExternalFns) (embed : Embedding)
    (pe : Option (PositionalEmbedding S)) (layers : PyIterable (TransformerDecoderLayer S))
    (nse ne : Bool) (edp : ℚ) (amg : Option (T3 → AttnMask)) (ldp : ℚ)
    (no : TransformerNormOrder) (neps : ℚ) (d : StandardTransformerDecoder S)
    (h : StandardTransformerDecoder.init ext embed pe layers nse ne edp amg ldp no neps =
      Except.ok d) :
    (d.inp_dim_proj.isSome = true ↔ embed.embedding_dim ≠ d.model_dim) ∧
    (d.out_dim_proj.isSome = true ↔ embed.embedding_dim ≠ d.model_dim) ∧
    (embed.embedding_dim = d.model_dim →
      d.inp_dim_proj = none ∧ d.out_dim_proj = none ∧
      ∀ (rng : ℕ → ℚ) (fdrop : T3 → T3) (seq : List (List ℤ)) (eo : Option T3)
        (epm : Option TensorMask) (bag : Option S),
        d.forward rng fdrop seq eo epm bag =
          d.forward_decoder_layers rng (d.forward_embed fdrop seq bag)
            (d.get_self_attn_padding_mask seq) eo epm bag) := by
  obtain ⟨l0, rest, hit, hd⟩ :=
    init_ok_elim ext embed pe layers nse ne edp amg ldp no neps d h
  subst hd
  have hmd : (StandardTransformerDecoder.build (S := S) ext embed pe
      { modules := layers.items, drop_p := ldp } l0.model_dim nse ne edp amg no
      neps).model_dim = l0.model_dim := rfl
  rw [hmd]
  refine ⟨?_, ?_, ?_⟩
  · by_cases hne : embed.embedding_dim ≠ l0.model_dim
    · simp [StandardTransformerDecoder.build, hne]
    · simp [StandardTransformerDecoder.build, hne]
  · by_cases hne : embed.embedding_dim ≠ l0.model_dim
    · simp [StandardTransformerDecoder.build, hne]
    · simp [StandardTransformerDecoder.build, hne]
  · intro heq
    have hinp : (StandardTransformerDecoder.build (S := S) ext embed pe
        { modules := layers.items, drop_p := ldp } l0.model_dim nse ne edp amg no
        neps).inp_dim_proj = none := by
      simp [StandardTransformerDecoder.build, heq]
    have hout : (StandardTransformerDecoder.build (S := S) ext embed pe
        { modules := layers.items, drop_p := ldp } l0.model_dim nse ne edp amg no
        neps).out_dim_proj = none := by
      simp [StandardTransformerDecoder.build, heq]
    refine ⟨hinp, hout, ?_⟩
    intro rng fdrop seq eo epm bag
    unfold StandardTransformerDecoder.forward StandardTransformerDecoder.inpStage
      StandardTransformerDecoder.outStage
    rw [hinp, hout]

/-- Witness for C7 at a concrete construction with equal widths. -/
theorem claim_c7_dim_adapters_witness :
    c6dec.inp_dim_proj = none ∧ c6dec.out_dim_proj = none ∧
    c6dec.forward (fun _ => 0) id [[1]] none none none =
      c6dec.forward_decoder_layers (fun _ => 0) (c6dec.forward_embed id [[1]] none)
        (c6dec.get_self_attn_padding_mask [[1]]) none none none := by
  have h := (claim_c7_dim_adapters (S := Unit) extC embed0 none
    { items := [layerDim 2], oneShot := false } false false 0 none 0
    TransformerNormOrder.POST 1 c6dec rfl).2.2 rfl
  exact ⟨h.1, h.2.1, h.2.2 (fun _ => 0) id [[1]] none none none⟩

/-! ## C4: output shape -/

/-- The shape of a hidden tensor: per batch row, the widths of its per-position
vectors (this encodes the batch size, the per-row sequence length and the
trailing width). -/
def ShapeOf (x : T3) : List (List ℕ) := x.map (fun r => r.map List.length)

/-- The shape whose leading dimensions are those of the token tensor `seq` and
whose trailing width is `w` everywhere. -/
def constShape (seq : List (List ℤ)) (w : ℕ) : List (List ℕ) :=
  seq.map (fun r => r.map (fun _ => w))

/-- Scalar multiplication preserves the shape. -/
theorem ShapeOf_smulT3 (s : ℚ) (x : T3) : ShapeOf (smulT3 s x) = ShapeOf x := by
  simp [ShapeOf, smulT3, List.map_map, Function.comp]

/-- Overwriting the trailing width of a constant shape. -/
theorem constShape_map (seq : List (List ℤ)) (a b : ℕ) :
    (constShape seq a).map (fun r => r.map (fun _ => b)) = constShape seq b := by
  simp [constShape, List.map_map, Function.comp]

/-- Every layer yielded by `ModuleList` iteration is one of its modules. -/
theorem mem_iter {S : Type} (ml : ModuleList S) (training : Bool) (rng : ℕ → ℚ)
    (l : TransformerDecoderLayer S) (h : l ∈ ml.iter training rng) : l ∈ ml.modules := by
  unfold ModuleList.iter at h
  by_cases hc : training = true ∧ 0 < ml.drop_p
  · rw [if_pos hc] at h
    rcases List.mem_filterMap.mp h with ⟨⟨i, l'⟩, hmem, hf⟩
    by_cases hr : rng i < ml.drop_p
    · rw [if_pos hr] at hf
      exact absurd hf (by simp)
    · rw [if_neg hr] at hf
      simp only [Option.some.injEq] at hf
      subst hf
      have := List.mem_enum_iff_getElem?.mp hmem
      exact List.mem_iff_getElem?.mpr ⟨i, this⟩
  · rw [if_neg hc] at h
    exact h

/-- The layer loop preserves the shape when every executed layer does. -/
theorem runLayers_shape {S : Type} (eo : Option T3) (epm : Option TensorMask) :
    ∀ (ls : List (TransformerDecoderLayer S)) (x : T3) (m : Option AttnMask)
      (pm : Option TensorMask) (bag : Option S),
      (∀ l ∈ ls, ∀ (y : T3) (m' : Option AttnMask) (pm' : Option TensorMask)
        (bag' : Option S), ShapeOf (l.fwd y m' pm' eo epm bag') = ShapeOf y) →
      ShapeOf (runLayers ls x m pm eo epm bag).1 = ShapeOf x := by
  intro ls
  induction ls with
  | nil => intro x m pm bag _; rfl
  | cons l ls ih =>
      intro x m pm bag hls
      unfold runLayers
      rw [ih _ m pm _ (fun l' hl' => hls l' (List.mem_cons_of_mem _ hl'))]
      exact hls l (List.mem_cons_self _ _) x m pm bag

/-- C4 (amended): for every input and successful construction, with every
collaborator meeting its shape contract, the output of `forward` has the same
leading batch/sequence dimensions as the input; its trailing width equals
`model_dim` when `embedding_dim = model_dim`, and `embedding_dim` otherwise
(the output dimension adapter projects back to the embedding width). -/
theorem claim_c4_output_shape {S : Type} (ext : ExternalFns) (embed : Embedding)
    (pe : Option (PositionalEmbedding S)) (layers : PyIterable (TransformerDecoderLayer S))
    (nse ne : Bool) (edp : ℚ) (amg : Option (T3 → AttnMask)) (ldp : ℚ)
    (no : TransformerNormOrder) (neps : ℚ) (d : StandardTransformerDecoder S)
    (h : StandardTransformerDecoder.init ext embed pe layers nse ne edp amg ldp no neps =
      Except.ok d)
    (hembed : ∀ s, ShapeOf (embed.run s) = constShape s embed.embedding_dim)
    (hpe : ∀ pe0, pe = some pe0 → ∀ (x : T3) (b : Option S), ShapeOf (pe0.run x b) = ShapeOf x)
    (hlnorm : ∀ (n : ℕ) (e : ℚ) (x : T3), ShapeOf (ext.layerNorm n e x) = ShapeOf x)
    (hlin : ∀ (i o : ℕ) (x : T3),
      ShapeOf (ext.linear i o x) = (ShapeOf x).map (fun r => r.map (fun _ => o)))
    (fdrop : T3 → T3) (hfdrop : ∀ x, ShapeOf (fdrop x) = ShapeOf x)
    (hlayers : ∀ l ∈ layers.items, ∀ (x : T3) (m : Option AttnMask)
      (pm : Option TensorMask) (eo : Option T3) (epm : Option TensorMask)
      (bag : Option S), ShapeOf (l.fwd x m pm eo epm bag) = ShapeOf x)
    (rng : ℕ → ℚ) (seq : List (List ℤ)) (eo : Option T3) (epm : Option TensorMask)
    (bag : Option S) :
    ShapeOf ((d.forward rng fdrop seq eo epm bag).1) = constShape seq embed.embedding_dim ∧
    (embed.embedding_dim = d.model_dim →
      ShapeOf ((d.forward rng fdrop seq eo epm bag).1) = constShape seq d.model_dim) := by
  obtain ⟨l0, rest, hit, hd⟩ :=
    init_ok_elim ext embed pe layers nse ne edp amg ldp no neps d h
  have hEmb : d.embed = embed := by rw [hd]; rfl
  have hPos : d.pos_embed = pe := by rw [hd]; rfl
  have hNorm : d.embed_norm =
      (if ne = true then some (ext.layerNorm embed.embedding_dim neps) else none) := by
    rw [hd]; rfl
  have hTrain : d.training = true := by rw [hd]; rfl
  have hInp : d.inp_dim_proj =
      (if embed.embedding_dim ≠ l0.model_dim then
        some (InternalDimProjection.init ext embed.embedding_dim l0.model_dim) else none) := by
    rw [hd]; rfl
  have hOut : d.out_dim_proj =
      (if embed.embedding_dim ≠ l0.model_dim then
        some (InternalDimProjection.init ext l0.model_dim embed.embedding_dim) else none) := by
    rw [hd]; rfl
  have hLn : d.layer_norm =
      (if no ≠ TransformerNormOrder.POST then some (ext.layerNorm l0.model_dim neps)
        else none) := by rw [hd]; rfl
  have hLay : d.layers = { modules := layers.items, drop_p := ldp } := by rw [hd]; rfl
  have hMd : d.model_dim = l0.model_dim := by rw [hd]; rfl
  have s1 : ShapeOf (d.forward_embed fdrop seq bag) = constShape seq embed.embedding_dim := by
    show ShapeOf
      (d.dropStage fdrop (d.normStage (d.posStage (d.scaleStage (d.embed.run seq)) bag))) = _
    have e1 : ShapeOf (d.scaleStage (d.embed.run seq)) = constShape seq embed.embedding_dim := by
      unfold StandardTransformerDecoder.scaleStage
      rw [hEmb]
      by_cases hs : d.embed_scale ≠ 1
      · rw [if_pos hs, ShapeOf_smulT3]
        exact hembed seq
      · rw [if_neg hs]
        exact hembed seq
    have e2 : ShapeOf (d.posStage (d.scaleStage (d.embed.run seq)) bag) =
        constShape seq embed.embedding_dim := by
      unfold StandardTransformerDecoder.posStage
      rw [hPos]
      cases hpe0 : pe with
      | none => exact e1
      | some pe0 => rw [hpe pe0 hpe0, e1]
    have e3 : ShapeOf (d.normStage (d.posStage (d.scaleStage (d.embed.run seq)) bag)) =
        constShape seq embed.embedding_dim := by
      unfold StandardTransformerDecoder.normStage
      rw [hNorm]
      by_cases hb : ne = true
      · rw [if_pos hb, hlnorm, e2]
      · rw [if_neg hb]
        exact e2
    unfold StandardTransformerDecoder.dropStage Fdropout
    rw [hTrain]
    by_cases hdp : 0 < d.embed_dropout_p
    · rw [if_pos hdp, if_pos rfl, hfdrop]
      exact e3
    · rw [if_neg hdp]
      exact e3
  have s2 : ShapeOf (d.inpStage (d.forward_embed fdrop seq bag)) =
      constShape seq l0.model_dim := by
    unfold StandardTransformerDecoder.inpStage
    rw [hInp]
    by_cases hdne : embed.embedding_dim ≠ l0.model_dim
    · rw [if_pos hdne]
      show ShapeOf (ext.linear embed.embedding_dim l0.model_dim _) = _
      rw [hlin, s1, constShape_map]
    · rw [if_neg hdne]
      push_neg at hdne
      rw [s1, hdne]
  have s3 : ShapeOf ((d.forward_decoder_layers rng (d.inpStage (d.forward_embed fdrop seq bag))
      (d.get_self_attn_padding_mask seq) eo epm bag).1) = constShape seq l0.model_dim := by
    unfold StandardTransformerDecoder.forward_decoder_layers
    show ShapeOf (d.lnStage (runLayers (d.layers.iter d.training rng)
      (d.inpStage (d.forward_embed fdrop seq bag))
      (d.self_attn_mask_of (d.inpStage (d.forward_embed fdrop seq bag)) bag)
      (d.get_self_attn_padding_mask seq) eo epm bag).1) = _
    have hrun : ShapeOf (runLayers (d.layers.iter d.training rng)
        (d.inpStage (d.forward_embed fdrop seq bag))
        (d.self_attn_mask_of (d.inpStage (d.forward_embed fdrop seq bag)) bag)
        (d.get_self_attn_padding_mask seq) eo epm bag).1 =
        ShapeOf (d.inpStage (d.forward_embed fdrop seq bag)) := by
      refine runLayers_shape eo epm _ _ _ _ bag ?_
      intro l hl y m' pm' bag'
      have hmem := mem_iter d.layers d.training rng l hl
      rw [hLay] at hmem
      exact hlayers l hmem y m' pm' eo epm bag'
    unfold StandardTransformerDecoder.lnStage
    rw [hLn]
    by_cases hpost : no ≠ TransformerNormOrder.POST
    · rw [if_pos hpost, hlnorm, hrun, s2]
    · rw [if_neg hpost, hrun, s2]
  have s4 : ShapeOf ((d.forward rng fdrop seq eo epm bag).1) =
      constShape seq embed.embedding_dim := by
    show ShapeOf (d.outStage (d.forward_decoder_layers rng
      (d.inpStage (d.forward_embed fdrop seq bag))
      (d.get_self_attn_padding_mask seq) eo epm bag).1) = _
    unfold StandardTransformerDecoder.outStage
    rw [hOut]
    by_cases hdne : embed.embedding_dim ≠ l0.model_dim
    · rw [if_pos hdne]
      show ShapeOf (ext.linear l0.model_dim embed.embedding_dim _) = _
      rw [hlin, s3, constShape_map]
    · rw [if_neg hdne]
      push_neg at hdne
      rw [s3, hdne]
  refine ⟨s4, fun heq => ?_⟩
  rw [heq] at s4
  exact s4

/-- Shape of an elementwise token embedding with vectors of constant width. -/
theorem ShapeOf_tokMap (f : ℤ → List ℚ) (w : ℕ) (hf : ∀ t, (f t).length = w)
    (s : List (List ℤ)) :
    ShapeOf (s.map (fun r => r.map f)) = constShape s w := by
  unfold ShapeOf constShape
  simp only [List.map_map]
  apply List.map_congr_left
  intro r _
  simp only [Function.comp]
  rw [List.map_map]
  apply List.map_congr_left
  intro t _
  simp only [Function.comp]
  exact hf t

/-- Shape of an elementwise per-vector map with constant output width. -/
theorem ShapeOf_vecMap (g : List ℚ → List ℚ) (w : ℕ) (hg : ∀ v, (g v).length = w)
    (x : T3) :
    ShapeOf (x.map (fun r => r.map g)) = (ShapeOf x).map (fun r => r.map (fun _ => w)) := by
  unfold ShapeOf
  simp only [List.map_map]
  apply List.map_congr_left
  intro r _
  simp only [Function.comp]
  rw [List.map_map, List.map_map]
  apply List.map_congr_left
  intro v _
  simp only [Function.comp]
  exact hg v

/-- A concrete embedding of width 1 and no padding index. -/
def embedW1 : Embedding :=
  { embedding_dim := 1
    padding_idx := none
    weight_dtype := DType.float32
    run := fun s => s.map (fun r => r.map (fun (tok : ℤ) => ([(tok : ℚ)] : List ℚ))) }

/-- A decoder with embedding width 1 and model width 2 as produced by `init`. -/
def c4dec : StandardTransformerDecoder Unit :=
  StandardTransformerDecoder.build extC embedW1 none
    { modules := [layerDim 2], drop_p := 0 } 2 false false 0 none
    TransformerNormOrder.POST 1

/-- Counterexample for C4 as stated: with `embedding_dim = 1` and
`model_dim = 2` the forward output has trailing width 1 (the embedding width,
restored by the output dimension adapter), not `model_dim`. -/
theorem claim_c4_counterexample :
    StandardTransformerDecoder.init (S := Unit) extC embedW1 none
        { items := [layerDim 2], oneShot := false } false false 0 none 0
        TransformerNormOrder.POST 1 = Except.ok c4dec ∧
    c4dec.model_dim = 2 ∧
    ShapeOf ((c4dec.forward (fun _ => 0) id [[3]] none none none).1) = [[1]] ∧
    (1 : ℕ) ≠ c4dec.model_dim := by
  refine ⟨rfl, rfl, by decide, by decide⟩

/-- Witness for C4 (amended) at the same concrete decoder: the output shape
equals the input's leading dimensions with trailing width `embedding_dim`. -/
theorem claim_c4_output_shape_witness :
    ShapeOf ((c4dec.forward (fun _ => 0) id [[3]] none none none).1) =
      constShape [[3]] embedW1.embedding_dim :=
  (claim_c4_output_shape (S := Unit) extC embedW1 none
    { items := [layerDim 2], oneShot := false } false false 0 none 0
    TransformerNormOrder.POST 1 c4dec rfl
    (by
      intro s
      show ShapeOf (s.map (fun r => r.map (fun (tok : ℤ) => ([(tok : ℚ)] : List ℚ)))) =
        constShape s 1
      exact ShapeOf_tokMap (fun (tok : ℤ) => ([(tok : ℚ)] : List ℚ)) 1 (fun t => rfl) s)
    (by intro pe0 hh; exact absurd hh (by simp))
    (by intro n e x; rfl)
    (by
      intro i o x
      show ShapeOf (x.map (fun r => r.map (fun v => List.replicate o (v.foldl (fun a b => a + b) 0)))) =
        (ShapeOf x).map (fun r => r.map (fun _ => o))
      exact ShapeOf_vecMap (fun v => List.replicate o (v.foldl (fun a b => a + b) 0)) o
        (fun v => List.length_replicate o _) x)
    id (fun x => rfl)
    (by
      intro l hl x m pm eo epm bag
      simp at hl
      rw [hl]
      rfl)
    (fun _ => 0) [[3]] none none none).1

/-! ## C1: incremental decoding equivalence.

The remaining definitions and lemmas build up the comparison between a
step-by-step (incremental) run of `forward` and one-pass full-sequence runs
over each prefix. -/

/-- An indexed map starting at index `i`. -/
def mapFrom {α β : Type} (i : ℕ) (f : ℕ → α → β) : List α → List β
  | [] => []
  | a :: l => f i a :: mapFrom (i + 1) f l

theorem mapFrom_map {α β γ : Type} (i : ℕ) (f : ℕ → β → γ) (g : α → β) (l : List α) :
    mapFrom i f (l.map g) = mapFrom i (fun j a => f j (g a)) l := by
  induction l generalizing i with
  | nil => rfl
  | cons a l ih => simp [mapFrom, ih]

theorem map_mapFrom {α β γ : Type} (i : ℕ) (f : ℕ → α → β) (g : β → γ) (l : List α) :
    (mapFrom i f l).map g = mapFrom i (fun j a => g (f j a)) l := by
  induction l generalizing i with
  | nil => rfl
  | cons a l ih => simp [mapFrom, ih]

theorem length_mapFrom {α β : Type} (i : ℕ) (f : ℕ → α → β) (l : List α) :
    (mapFrom i f l).length = l.length := by
  induction l generalizing i with
  | nil => rfl
  | cons a l ih => simp [mapFrom, ih]

theorem mapFrom_take {α β : Type} (i n : ℕ) (f : ℕ → α → β) (l : List α) :
    (mapFrom i f l).take n = mapFrom i f (l.take n) := by
  induction l generalizing i n with
  | nil => simp [mapFrom]
  | cons a l ih =>
      cases n with
      | zero => rfl
      | succ n => simp [mapFrom, ih]

theorem mapFrom_drop {α β : Type} (i n : ℕ) (f : ℕ → α → β) (l : List α) :
    (mapFrom i f l).drop n = mapFrom (i + n) f (l.drop n) := by
  induction l generalizing i n with
  | nil => simp [mapFrom]
  | cons a l ih =>
      cases n with
      | zero => rfl
      | succ n =>
          show (mapFrom (i + 1) f l).drop n = mapFrom (i + (n + 1)) f (l.drop n)
          rw [ih]
          congr 1
          omega

theorem mapFrom_take_one {α β : Type} (i : ℕ) (f : ℕ → α → β) (l : List α) :
    mapFrom i f (l.take 1) = (l.take 1).map (f i) := by
  cases l with
  | nil => rfl
  | cons a l => rfl

/-- The `t`-th one-position column of a token tensor. -/
def colTok (t : ℕ) (seq : List (List ℤ)) : List (List ℤ) :=
  seq.map (fun r => (r.drop t).take 1)

/-- The first `n` positions of a token tensor. -/
def takeTok (n : ℕ) (seq : List (List ℤ)) : List (List ℤ) :=
  seq.map (fun r => r.take n)

/-- The `t`-th one-position column of a hidden tensor. -/
def colT3 (t : ℕ) (x : T3) : T3 := x.map (fun r => (r.drop t).take 1)

/-- The first `n` positions of a hidden tensor. -/
def takeT3 (n : ℕ) (x : T3) : T3 := x.map (fun r => r.take n)

/-- Row-wise concatenation of a prefix tensor and a one-position column. -/
def appendT3 (x c : T3) : T3 := List.zipWith (fun r cr => r ++ cr) x c

/-- A per-vector elementwise map commutes with taking a column. -/
theorem colT3_mapVec (t : ℕ) (f : List ℚ → List ℚ) (y : T3) :
    colT3 t (y.map (fun r => r.map f)) = (colT3 t y).map (fun r => r.map f) := by
  unfold colT3
  simp only [List.map_map]
  apply List.map_congr_left
  intro r _
  simp only [Function.comp]
  rw [← List.map_drop, ← List.map_take]

/-- Rebuilding a tensor of (t+1)-long rows from its length-`t` prefix and its
`t`-th column. -/
theorem appendT3_take_col {x : T3} {t : ℕ} (hx : ∀ r ∈ x, r.length = t + 1) :
    appendT3 (takeT3 t x) (colT3 t x) = x := by
  unfold appendT3 takeT3 colT3
  induction x with
  | nil => rfl
  | cons r x ih =>
      simp only [List.map_cons, List.zipWith_cons_cons]
      have hr : r.length = t + 1 := hx r (List.mem_cons_self _ _)
      have h1 : (r.drop t).take 1 = r.drop t := by
        apply List.take_of_length_le
        rw [List.length_drop, hr]
        omega
      rw [h1, List.take_append_drop]
      rw [ih (fun r' hr' => hx r' (List.mem_cons_of_mem _ hr'))]

/-- Rows of a column slice are singletons when the column index is in range. -/
theorem colT3_rows {x : T3} {t : ℕ} (hx : ∀ r ∈ x, t < r.length) :
    ∀ r ∈ colT3 t x, r.length = 1 := by
  intro r hr
  rcases List.mem_map.mp hr with ⟨r0, hr0, he⟩
  rw [← he, List.length_take, List.length_drop]
  have := hx r0 hr0
  omega

/-- A tensor whose rows all have length zero and whose row count matches `s`
is the empty-rows tensor over `s`. -/
theorem eq_nilRows {x : T3} {s : List (List ℤ)} (hlen : x.length = s.length)
    (h0 : ∀ r ∈ x, r.length = 0) : x = s.map (fun _ => ([] : List (List ℚ))) := by
  induction x generalizing s with
  | nil =>
      cases s with
      | nil => rfl
      | cons a s' => exact absurd hlen (by simp)
  | cons r x ih =>
      cases s with
      | nil => exact absurd hlen (by simp)
      | cons a s' =>
          simp only [List.map_cons, List.cons.injEq]
          constructor
          · exact List.length_eq_zero.mp (h0 r (List.mem_cons_self _ _))
          · exact ih (by simpa using hlen) (fun r' hr' => h0 r' (List.mem_cons_of_mem _ hr'))

/-- The incremental-decoding driver's bag before step `t`: starting from the
fresh bag `b0`, each step runs `forward` on the `t`-th single-token column
with the bag present and then advances the bag's step counter with `inc`, as
the sequence generator does between steps. -/
def incBagAt {S : Type} (d : StandardTransformerDecoder S) (inc : S → S) (rng : ℕ → ℚ)
    (fdrop : T3 → T3) (seq : List (List ℤ)) (eo : Option T3) (epm : Option TensorMask)
    (b0 : S) : ℕ → S
  | 0 => b0
  | t + 1 =>
      let b := incBagAt d inc rng fdrop seq eo epm b0 t
      inc (((d.forward rng fdrop (colTok t seq) eo epm (some b)).2).getD b)

/-- The step-`t` output of the incremental run. -/
def incOutAt {S : Type} (d : StandardTransformerDecoder S) (inc : S → S) (rng : ℕ → ℚ)
    (fdrop : T3 → T3) (seq : List (List ℤ)) (eo : Option T3) (epm : Option TensorMask)
    (b0 : S) (t : ℕ) : T3 :=
  (d.forward rng fdrop (colTok t seq) eo epm
    (some (incBagAt d inc rng fdrop seq eo epm b0 t))).1

/-- The full-sequence output over the prefix of length `t + 1`, computed in
one non-incremental pass (no state bag). -/
def fullOutAt {S : Type} (d : StandardTransformerDecoder S) (rng : ℕ → ℚ)
    (fdrop : T3 → T3) (seq : List (List ℤ)) (eo : Option T3) (epm : Option TensorMask)
    (t : ℕ) : T3 :=
  (d.forward rng fdrop (takeTok (t + 1) seq) eo epm none).1

/-- The sequence length (second-to-last dimension) of a hidden tensor: the
length of its first batch row. -/
def seqLen3 (x : T3) : ℕ :=
  match x with
  | [] => 0
  | r :: _ => r.length

/-- The composed per-token embed-path function at absolute position `j`:
token embedding, scaling, positional transformation, embed norm, input
adapter. -/
def embedCol (scale : ℚ) (e1 : ℤ → List ℚ) (pf : ℕ → List ℚ → List ℚ)
    (en1 ip : List ℚ → List ℚ) (j : ℕ) (tok : ℤ) : List ℚ :=
  ip (en1 (pf j ((e1 tok).map (fun q => scale * q))))

/-- Layer 0's input in the full pass over the first `p` positions. -/
def full0 (scale : ℚ) (e1 : ℤ → List ℚ) (pf : ℕ → List ℚ → List ℚ)
    (en1 ip : List ℚ → List ℚ) (seq : List (List ℤ)) (p : ℕ) : T3 :=
  seq.map (fun r => mapFrom 0 (embedCol scale e1 pf en1 ip) (r.take p))

/-- The input of layer `k` in a one-bag-free pass of the layer stack with a
fixed attention mask `m` and padding mask `pm`, starting from `x0`. -/
def fullInD {S : Type} (mods : List (TransformerDecoderLayer S)) (m : Option AttnMask)
    (pm : Option TensorMask) (eo : Option T3) (epm : Option TensorMask) (x0 : T3) :
    ℕ → T3
  | 0 => x0
  | k + 1 =>
      match mods[k]? with
      | some l => l.fwd (fullInD mods m pm eo epm x0 k) m pm eo epm none
      | none => fullInD mods m pm eo epm x0 k

theorem fullInD_cons {S : Type} (l : TransformerDecoderLayer S)
    (ls : List (TransformerDecoderLayer S)) (m : Option AttnMask) (pm : Option TensorMask)
    (eo : Option T3) (epm : Option TensorMask) (x : T3) (k : ℕ) :
    fullInD (l :: ls) m pm eo epm x (k + 1) =
      fullInD ls m pm eo epm (l.fwd x m pm eo epm none) k := by
  induction k with
  | zero =>
      show (match (l :: ls)[0]? with
        | some l' => l'.fwd (fullInD (l :: ls) m pm eo epm x 0) m pm eo epm none
        | none => fullInD (l :: ls) m pm eo epm x 0) = _
      rw [List.getElem?_cons_zero]
      rfl
  | succ k ih =>
      show (match (l :: ls)[k + 1]? with
        | some l' => l'.fwd (fullInD (l :: ls) m pm eo epm x (k + 1)) m pm eo epm none
        | none => fullInD (l :: ls) m pm eo epm x (k + 1)) = _
      rw [List.getElem?_cons_succ, ih]
      rfl

/-- A bag-free `runLayers` pass computes the layer-input chain at full depth
and returns no bag. -/
theorem runLayers_none {S : Type} (m : Option AttnMask) (pm : Option TensorMask)
    (eo : Option T3) (epm : Option TensorMask) :
    ∀ (ls : List (TransformerDecoderLayer S)) (x : T3),
      runLayers ls x m pm eo epm none = (fullInD ls m pm eo epm x ls.length, none) := by
  intro ls
  induction ls with
  | nil => intro x; rfl
  | cons l ls ih =>
      intro x
      show runLayers ls (l.fwd x m pm eo epm none) m pm eo epm none = _
      rw [ih (l.fwd x m pm eo epm none)]
      rw [show (l :: ls).length = ls.length + 1 from rfl, fullInD_cons]

/-- The layer-input chain preserves the row lengths of its start tensor when
every layer is shape-preserving. -/
theorem fullInD_rowLens {S : Type} (mods : List (TransformerDecoderLayer S))
    (m : Option AttnMask) (pm : Option TensorMask) (eo : Option T3)
    (epm : Option TensorMask) (x0 : T3)
    (hsh : ∀ (i : ℕ) (l : TransformerDecoderLayer S), mods[i]? = some l →
      ∀ (x : T3) (m' : Option AttnMask) (pm' : Option TensorMask) (bag : Option S),
      (l.fwd x m' pm' eo epm bag).map List.length = x.map List.length) :
    ∀ k, (fullInD mods m pm eo epm x0 k).map List.length = x0.map List.length := by
  intro k
  induction k with
  | zero => rfl
  | succ k ih =>
      show (match mods[k]? with
        | some l => l.fwd (fullInD mods m pm eo epm x0 k) m pm eo epm none
        | none => fullInD mods m pm eo epm x0 k).map List.length = _
      cases hk : mods[k]? with
      | none => exact ih
      | some l => rw [hsh k l hk, ih]

/-- Transporting per-row length facts along an equality of row-length lists. -/
theorem forall_length_of_map_length {x y : T3}
    (h : x.map List.length = y.map List.length) (n : ℕ) (hy : ∀ r ∈ y, r.length = n) :
    ∀ r ∈ x, r.length = n := by
  intro r hr
  have hmem : r.length ∈ y.map List.length := by
    rw [← h]
    exact List.mem_map_of_mem List.length hr
  rcases List.mem_map.mp hmem with ⟨r', hr', he⟩
  rw [← he, hy r' hr']

/-- Transporting the row count along an equality of row-length lists. -/
theorem length_of_map_length {x y : T3}
    (h : x.map List.length = y.map List.length) : x.length = y.length := by
  have := congrArg List.length h
  simpa using this

/-- The guarded scale statement always equals one scalar multiplication. -/
theorem scaleStage_eq_smul {S : Type} (d : StandardTransformerDecoder S) (x : T3) :
    d.scaleStage x = smulT3 d.embed_scale x := by
  unfold StandardTransformerDecoder.scaleStage
  by_cases hs : d.embed_scale ≠ 1
  · rw [if_pos hs]
  · rw [if_neg hs]
    push_neg at hs
    rw [hs, smulT3_one]

/-- Outside training mode the dropout stage is the identity. -/
theorem dropStage_eval {S : Type} (d : StandardTransformerDecoder S)
    (h : d.training = false) (fdrop : T3 → T3) (x : T3) : d.dropStage fdrop x = x := by
  unfold StandardTransformerDecoder.dropStage Fdropout
  rw [h]
  by_cases hp : 0 < d.embed_dropout_p
  · rw [if_pos hp]
    simp
  · rw [if_neg hp]

/-- The incremental contract of the decoder's collaborators at inference time,
for a fixed token tensor `seq`, encoder output `eo`, encoder padding mask
`epm`, fresh bag `b0` and step-advance function `inc`:

* the embedding is an elementwise token map `e1`;
* the positional encoder applies a per-absolute-position transformation `pf`
  (full mode: the position within the tensor; incremental mode: the bag's
  current step);
* embed norm, input adapter, output adapter and final layer norm are
  elementwise per-vector maps;
* the mask generator is a function `gm` of the sequence length alone;
* each layer `i` owns a cache abstraction `R i` relating its consumed input
  prefix to the bag: on a fresh bag every cache is empty; running a layer on
  the next column with its cache of a prefix yields exactly the last column of
  its full-mode output on the extended prefix with the causal mask and the
  prefix padding mask, and extends only its own cache (other caches and the
  step counter are untouched); full-mode layer outputs are causal
  (prefix-stable) and shape-preserving. -/
structure IncrContract (S : Type) (d : StandardTransformerDecoder S)
    (seq : List (List ℤ)) (eo : Option T3) (epm : Option TensorMask)
    (b0 : S) (inc : S → S) where
  e1 : ℤ → List ℚ
  pf : ℕ → List ℚ → List ℚ
  en1 : List ℚ → List ℚ
  ip : List ℚ → List ℚ
  op : List ℚ → List ℚ
  lnf : List ℚ → List ℚ
  gm : ℕ → AttnMask
  stepOf : S → ℕ
  R : ℕ → T3 → S → Prop
  htrain : d.training = false
  hembed : ∀ s, d.embed.run s = s.map (fun r => r.map e1)
  hposFull : ∀ x, d.posStage x none = x.map (fun r => mapFrom 0 pf r)
  hposInc : ∀ (x : T3) (b : S), d.posStage x (some b) = x.map (fun r => r.map (pf (stepOf b)))
  hnorm : ∀ x, d.normStage x = x.map (fun r => r.map en1)
  hinp : ∀ x, d.inpStage x = x.map (fun r => r.map ip)
  hout : ∀ x, d.outStage x = x.map (fun r => r.map op)
  hln : ∀ x, d.lnStage x = x.map (fun r => r.map lnf)
  hgen : ∀ x, d.self_attn_mask_gen x = gm (seqLen3 x)
  hstepInc : ∀ b, stepOf (inc b) = stepOf b + 1
  hstep0 : stepOf b0 = 0
  hR0 : ∀ i, R i (seq.map (fun _ => ([] : List (List ℚ)))) b0
  hstepMut : ∀ (i : ℕ) (l : TransformerDecoderLayer S), d.layers.modules[i]? = some l →
    ∀ (x : T3) (m : Option AttnMask) (pm : Option TensorMask) (b : S),
      stepOf (l.mutate x m pm eo epm b) = stepOf b
  hframe : ∀ (i j : ℕ) (li : TransformerDecoderLayer S), i ≠ j →
    d.layers.modules[i]? = some li →
    ∀ (x : T3) (m : Option AttnMask) (pm : Option TensorMask) (b : S) (y : T3),
      R j y b → R j y (li.mutate x m pm eo epm b)
  hRinc : ∀ (i : ℕ) (y : T3) (b : S), R i y b → R i y (inc b)
  hshape : ∀ (i : ℕ) (l : TransformerDecoderLayer S), d.layers.modules[i]? = some l →
    ∀ (x : T3) (m : Option AttnMask) (pm : Option TensorMask) (bag : Option S),
      (l.fwd x m pm eo epm bag).map List.length = x.map List.length
  hcausal : ∀ (i : ℕ) (l : TransformerDecoderLayer S), d.layers.modules[i]? = some l →
    ∀ (t n : ℕ) (x : T3), t ≤ n → (∀ r ∈ x, r.length = n) →
      l.fwd (takeT3 t x) (some (gm t))
          (d.get_self_attn_padding_mask (takeTok t seq)) eo epm none =
        takeT3 t (l.fwd x (some (gm n))
          (d.get_self_attn_padding_mask (takeTok n seq)) eo epm none)
  hstep : ∀ (i : ℕ) (l : TransformerDecoderLayer S), d.layers.modules[i]? = some l →
    ∀ (t : ℕ) (x c : T3) (b : S), R i x b → stepOf b = t →
      (∀ r ∈ x, r.length = t) → (∀ r ∈ c, r.length = 1) → c.length = x.length →
      l.fwd c none (d.get_self_attn_padding_mask (colTok t seq)) eo epm (some b) =
        colT3 t (l.fwd (appendT3 x c) (some (gm (t + 1)))
          (d.get_self_attn_padding_mask (takeTok (t + 1) seq)) eo epm none) ∧
      R i (appendT3 x c)
        (l.mutate c none (d.get_self_attn_padding_mask (colTok t seq)) eo epm b)

/-- The input of layer `k` in the full pass over the first `p` positions,
under a contract `C`. -/
def fullInC {S : Type} {d : StandardTransformerDecoder S} {seq : List (List ℤ)}
    {eo : Option T3} {epm : Option TensorMask} {b0 : S} {inc : S → S}
    (C : IncrContract S d seq eo epm b0 inc) (p k : ℕ) : T3 :=
  fullInD d.layers.modules (some (C.gm p))
    (d.get_self_attn_padding_mask (takeTok p seq)) eo epm
    (full0 d.embed_scale C.e1 C.pf C.en1 C.ip seq p) k

theorem fullInD_succ {S : Type} (mods : List (TransformerDecoderLayer S))
    (m : Option AttnMask) (pm : Option TensorMask) (eo : Option T3)
    (epm : Option TensorMask) (x0 : T3) (k : ℕ) :
    fullInD mods m pm eo epm x0 (k + 1) =
      match mods[k]? with
      | some l => l.fwd (fullInD mods m pm eo epm x0 k) m pm eo epm none
      | none => fullInD mods m pm eo epm x0 k := rfl

theorem full0_rows {scale : ℚ} {e1 : ℤ → List ℚ} {pf : ℕ → List ℚ → List ℚ}
    {en1 ip : List ℚ → List ℚ} {seq : List (List ℤ)} {p T : ℕ}
    (hT : ∀ r ∈ seq, r.length = T) (hp : p ≤ T) :
    ∀ r ∈ full0 scale e1 pf en1 ip seq p, r.length = p := by
  intro r hr
  rcases List.mem_map.mp hr with ⟨r0, hr0, he⟩
  rw [← he, length_mapFrom, List.length_take, hT r0 hr0]
  omega

theorem full0_length (scale : ℚ) (e1 : ℤ → List ℚ) (pf : ℕ → List ℚ → List ℚ)
    (en1 ip : List ℚ → List ℚ) (seq : List (List ℤ)) (p : ℕ) :
    (full0 scale e1 pf en1 ip seq p).length = seq.length :=
  List.length_map _ _

theorem takeT3_full0 (scale : ℚ) (e1 : ℤ → List ℚ) (pf : ℕ → List ℚ → List ℚ)
    (en1 ip : List ℚ → List ℚ) (seq : List (List ℤ)) {t n : ℕ} (h : t ≤ n) :
    takeT3 t (full0 scale e1 pf en1 ip seq n) = full0 scale e1 pf en1 ip seq t := by
  unfold takeT3 full0
  simp only [List.map_map]
  apply List.map_congr_left
  intro r _
  simp only [Function.comp]
  rw [mapFrom_take, List.take_take, Nat.min_eq_left h]

theorem colT3_full0 (scale : ℚ) (e1 : ℤ → List ℚ) (pf : ℕ → List ℚ → List ℚ)
    (en1 ip : List ℚ → List ℚ) (seq : List (List ℤ)) (t : ℕ) :
    colT3 t (full0 scale e1 pf en1 ip seq (t + 1)) =
      (colTok t seq).map (fun r => r.map (embedCol scale e1 pf en1 ip t)) := by
  unfold colT3 full0 colTok
  simp only [List.map_map]
  apply List.map_congr_left
  intro r _
  simp only [Function.comp]
  rw [mapFrom_drop, Nat.zero_add, mapFrom_take, List.drop_take]
  have h1 : t + 1 - t = 1 := by omega
  rw [h1, List.take_take, Nat.min_self, mapFrom_take_one]

theorem fullInC_rowLens {S : Type} {d : StandardTransformerDecoder S}
    {seq : List (List ℤ)} {eo : Option T3} {epm : Option TensorMask} {b0 : S}
    {inc : S → S} (C : IncrContract S d seq eo epm b0 inc) (p k : ℕ) :
    (fullInC C p k).map List.length =
      (full0 d.embed_scale C.e1 C.pf C.en1 C.ip seq p).map List.length :=
  fullInD_rowLens _ _ _ _ _ _ C.hshape k

theorem fullInC_rows {S : Type} {d : StandardTransformerDecoder S}
    {seq : List (List ℤ)} {eo : Option T3} {epm : Option TensorMask} {b0 : S}
    {inc : S → S} (C : IncrContract S d seq eo epm b0 inc) {p T k : ℕ}
    (hT : ∀ r ∈ seq, r.length = T) (hp : p ≤ T) :
    ∀ r ∈ fullInC C p k, r.length = p :=
  forall_length_of_map_length (fullInC_rowLens C p k) p (full0_rows hT hp)

theorem fullInC_length {S : Type} {d : StandardTransformerDecoder S}
    {seq : List (List ℤ)} {eo : Option T3} {epm : Option TensorMask} {b0 : S}
    {inc : S → S} (C : IncrContract S d seq eo epm b0 inc) (p k : ℕ) :
    (fullInC C p k).length = seq.length := by
  have h := length_of_map_length (fullInC_rowLens C p k)
  rw [h, full0_length]

theorem fullInC_take {S : Type} {d : StandardTransformerDecoder S}
    {seq : List (List ℤ)} {eo : Option T3} {epm : Option TensorMask} {b0 : S}
    {inc : S → S} (C : IncrContract S d seq eo epm b0 inc) {T : ℕ}
    (hT : ∀ r ∈ seq, r.length = T) {t : ℕ} (ht : t < T) :
    ∀ k, takeT3 t (fullInC C (t + 1) k) = fullInC C t k := by
  intro k
  induction k with
  | zero => exact takeT3_full0 _ _ _ _ _ _ (by omega)
  | succ k ih =>
      unfold fullInC
      rw [fullInD_succ, fullInD_succ]
      cases hk : d.layers.modules[k]? with
      | none => exact ih
      | some l =>
          show takeT3 t (l.fwd (fullInC C (t + 1) k) (some (C.gm (t + 1)))
            (d.get_self_attn_padding_mask (takeTok (t + 1) seq)) eo epm none) = _
          rw [← C.hcausal k l hk t (t + 1) (fullInC C (t + 1) k) (by omega)
            (fullInC_rows C hT (by omega))]
          rw [ih]
          rfl

/-- At inference, the embed path followed by the input adapter, on a prefix of
the token tensor with no bag, is the indexed elementwise map `embedCol`. -/
theorem embed_path_full {S : Type} (d : StandardTransformerDecoder S) (fdrop : T3 → T3)
    (seq : List (List ℤ)) (p : ℕ) (e1 : ℤ → List ℚ) (pf : ℕ → List ℚ → List ℚ)
    (en1 ip : List ℚ → List ℚ) (htrain : d.training = false)
    (hembed : ∀ s, d.embed.run s = s.map (fun r => r.map e1))
    (hposFull : ∀ x, d.posStage x none = x.map (fun r => mapFrom 0 pf r))
    (hnorm : ∀ x, d.normStage x = x.map (fun r => r.map en1))
    (hinp : ∀ x, d.inpStage x = x.map (fun r => r.map ip)) :
    d.inpStage (d.forward_embed fdrop (takeTok p seq) none) =
      full0 d.embed_scale e1 pf en1 ip seq p := by
  show d.inpStage (d.dropStage fdrop (d.normStage (d.posStage
    (d.scaleStage (d.embed.run (takeTok p seq))) none))) = _
  rw [dropStage_eval d htrain, hembed, scaleStage_eq_smul, hposFull, hnorm, hinp]
  unfold smulT3 full0 takeTok
  simp only [List.map_map]
  apply List.map_congr_left
  intro r _
  simp only [Function.comp]
  rw [List.map_map, mapFrom_map, map_mapFrom, mapFrom_map]
  rfl

/-- At inference, the embed path followed by the input adapter, on the `t`-th
one-token column with a bag at step `t`, is the elementwise map
`embedCol _ _ _ _ _ t`. -/
theorem embed_path_inc {S : Type} (d : StandardTransformerDecoder S) (fdrop : T3 → T3)
    (seq : List (List ℤ)) (t : ℕ) (b : S) (e1 : ℤ → List ℚ)
    (pf : ℕ → List ℚ → List ℚ) (en1 ip : List ℚ → List ℚ) (stepOfF : S → ℕ)
    (htrain : d.training = false)
    (hembed : ∀ s, d.embed.run s = s.map (fun r => r.map e1))
    (hposInc : ∀ (x : T3) (b' : S),
      d.posStage x (some b') = x.map (fun r => r.map (pf (stepOfF b'))))
    (hnorm : ∀ x, d.normStage x = x.map (fun r => r.map en1))
    (hinp : ∀ x, d.inpStage x = x.map (fun r => r.map ip)) (hb : stepOfF b = t) :
    d.inpStage (d.forward_embed fdrop (colTok t seq) (some b)) =
      (colTok t seq).map (fun r => r.map (embedCol d.embed_scale e1 pf en1 ip t)) := by
  show d.inpStage (d.dropStage fdrop (d.normStage (d.posStage
    (d.scaleStage (d.embed.run (colTok t seq))) (some b)))) = _
  rw [dropStage_eval d htrain, hembed, scaleStage_eq_smul, hposInc, hnorm, hinp, hb]
  unfold smulT3
  simp only [List.map_map]
  apply List.map_congr_left
  intro r _
  simp only [Function.comp]
  rw [List.map_map, List.map_map, List.map_map, List.map_map]
  rfl

/-- One incremental step through the tail of the layer stack: starting at
layer `k` with a bag whose caches cover the already-stepped layers' extended
prefixes and the remaining layers' current prefixes, the layer loop produces
the last column of the full pass over the extended prefix together with a bag
whose caches cover every layer's extended prefix. -/
theorem c1_inner {S : Type} {d : StandardTransformerDecoder S} {seq : List (List ℤ)}
    {eo : Option T3} {epm : Option TensorMask} {b0 : S} {inc : S → S}
    (C : IncrContract S d seq eo epm b0 inc) {T : ℕ}
    (hT : ∀ r ∈ seq, r.length = T) {t : ℕ} (ht : t < T) :
    ∀ (ls : List (TransformerDecoderLayer S)) (k : ℕ),
      d.layers.modules.drop k = ls →
      ∀ b : S, C.stepOf b = t →
      (∀ j, j < k → C.R j (fullInC C (t + 1) j) b) →
      (∀ j, k ≤ j → j < k + ls.length → C.R j (fullInC C t j) b) →
      ∃ b' : S,
        runLayers ls (colT3 t (fullInC C (t + 1) k)) none
            (d.get_self_attn_padding_mask (colTok t seq)) eo epm (some b) =
          (colT3 t (fullInC C (t + 1) (k + ls.length)), some b') ∧
        C.stepOf b' = t ∧
        (∀ j, j < k + ls.length → C.R j (fullInC C (t + 1) j) b') := by
  intro ls
  induction ls with
  | nil =>
      intro k hk b hb hlt hge
      exact ⟨b, rfl, hb, fun j hj => hlt j (by simpa using hj)⟩
  | cons l ls ih =>
      intro k hk b hb hlt hge
      have hkl : d.layers.modules[k]? = some l := by
        have h0 : (d.layers.modules.drop k)[0]? = some l := by
          rw [hk, List.getElem?_cons_zero]
        rw [List.getElem?_drop] at h0
        simpa using h0
      have hk1 : d.layers.modules.drop (k + 1) = ls := by
        have h1 : (d.layers.modules.drop k).drop 1 = ls := by rw [hk]; rfl
        rw [List.drop_drop] at h1
        simpa using h1
      have hrows1 : ∀ r ∈ fullInC C (t + 1) k, r.length = t + 1 :=
        fullInC_rows C hT (by omega)
      have hrowst : ∀ r ∈ fullInC C t k, r.length = t :=
        fullInC_rows C hT (by omega)
      have hcols : ∀ r ∈ colT3 t (fullInC C (t + 1) k), r.length = 1 :=
        colT3_rows (fun r hr => by rw [hrows1 r hr]; omega)
      have hclen : (colT3 t (fullInC C (t + 1) k)).length = (fullInC C t k).length := by
        unfold colT3
        rw [List.length_map, fullInC_length, fullInC_length]
      have happ : appendT3 (fullInC C t k) (colT3 t (fullInC C (t + 1) k)) =
          fullInC C (t + 1) k := by
        rw [← fullInC_take C hT ht k]
        exact appendT3_take_col hrows1
      have hRk : C.R k (fullInC C t k) b :=
        hge k (le_refl k) (by simp only [List.length_cons]; omega)
      obtain ⟨hfwd, hRk'⟩ := C.hstep k l hkl t (fullInC C t k)
        (colT3 t (fullInC C (t + 1) k)) b hRk hb hrowst hcols hclen
      rw [happ] at hfwd hRk'
      have hnext : l.fwd (fullInC C (t + 1) k) (some (C.gm (t + 1)))
          (d.get_self_attn_padding_mask (takeTok (t + 1) seq)) eo epm none =
          fullInC C (t + 1) (k + 1) := by
        unfold fullInC
        rw [fullInD_succ, hkl]
      rw [hnext] at hfwd
      have hstep1 : C.stepOf (l.mutate (colT3 t (fullInC C (t + 1) k)) none
          (d.get_self_attn_padding_mask (colTok t seq)) eo epm b) = t := by
        rw [C.hstepMut k l hkl, hb]
      have hlt1 : ∀ j, j < k + 1 → C.R j (fullInC C (t + 1) j)
          (l.mutate (colT3 t (fullInC C (t + 1) k)) none
            (d.get_self_attn_padding_mask (colTok t seq)) eo epm b) := by
        intro j hj
        by_cases hjk : j = k
        · subst hjk
          exact hRk'
        · exact C.hframe k j l (fun he => hjk he.symm) hkl _ _ _ _ _ (hlt j (by omega))
      have hge1 : ∀ j, k + 1 ≤ j → j < (k + 1) + ls.length → C.R j (fullInC C t j)
          (l.mutate (colT3 t (fullInC C (t + 1) k)) none
            (d.get_self_attn_padding_mask (colTok t seq)) eo epm b) := by
        intro j hj1 hj2
        refine C.hframe k j l (by omega) hkl _ _ _ _ _ (hge j (by omega) ?_)
        simp only [List.length_cons]
        omega
      obtain ⟨b', hrun, hstep', hinv'⟩ := ih (k + 1) hk1
        (l.mutate (colT3 t (fullInC C (t + 1) k)) none
          (d.get_self_attn_padding_mask (colTok t seq)) eo epm b) hstep1 hlt1 hge1
      have heq : k + (l :: ls).length = (k + 1) + ls.length := by
        simp only [List.length_cons]
        omega
      refine ⟨b', ?_, hstep', ?_⟩
      · rw [heq]
        have hcons : runLayers (l :: ls) (colT3 t (fullInC C (t + 1) k)) none
            (d.get_self_attn_padding_mask (colTok t seq)) eo epm (some b) =
          runLayers ls (l.fwd (colT3 t (fullInC C (t + 1) k)) none
              (d.get_self_attn_padding_mask (colTok t seq)) eo epm (some b)) none
            (d.get_self_attn_padding_mask (colTok t seq)) eo epm
            (some (l.mutate (colT3 t (fullInC C (t + 1) k)) none
              (d.get_self_attn_padding_mask (colTok t seq)) eo epm b)) := rfl
        rw [hcons, hfwd, hrun]
      · intro j hj
        apply hinv' j
        rw [heq] at hj
        exact hj

/-- The sequence length of the embedded prefix of a non-empty batch. -/
theorem seqLen3_full0 (scale : ℚ) (e1 : ℤ → List ℚ) (pf : ℕ → List ℚ → List ℚ)
    (en1 ip : List ℚ → List ℚ) {seq : List (List ℤ)} {T : ℕ}
    (hT : ∀ r ∈ seq, r.length = T) (hne : seq ≠ []) {p : ℕ} (hp : p ≤ T) :
    seqLen3 (full0 scale e1 pf en1 ip seq p) = p := by
  rcases List.exists_cons_of_ne_nil hne with ⟨r0, rest, hs⟩
  subst hs
  show (mapFrom 0 (embedCol scale e1 pf en1 ip) (r0.take p)).length = p
  rw [length_mapFrom, List.length_take, hT r0 (List.mem_cons_self _ _)]
  omega

/-- Outside training, module-list iteration yields every module. -/
theorem iter_inference {S : Type} (d : StandardTransformerDecoder S)
    (h : d.training = false) (rng : ℕ → ℚ) :
    d.layers.iter d.training rng = d.layers.modules := by
  unfold ModuleList.iter
  rw [h]
  simp

/-- Outside training, with a bag present, no self-attention mask is built. -/
theorem self_attn_mask_of_some {S : Type} (d : StandardTransformerDecoder S)
    (h : d.training = false) (x : T3) (b : S) :
    d.self_attn_mask_of x (some b) = none := by
  unfold StandardTransformerDecoder.self_attn_mask_of
  rw [if_neg]
  rintro (hc | hc)
  · rw [h] at hc
    exact Bool.noConfusion hc
  · exact Bool.noConfusion hc

/-- Evaluation of an incremental `forward` call under the contract: the embed
path produces the current column of the layer-0 full input, the layers run
with no attention mask and the single-column padding mask. -/
theorem forward_inc_eval {S : Type} {d : StandardTransformerDecoder S}
    {seq : List (List ℤ)} {eo : Option T3} {epm : Option TensorMask} {b0 : S}
    {inc : S → S} (C : IncrContract S d seq eo epm b0 inc) (rng : ℕ → ℚ)
    (fdrop : T3 → T3) (t : ℕ) (b : S) (hb : C.stepOf b = t) :
    d.forward rng fdrop (colTok t seq) eo epm (some b) =
      (d.outStage (d.lnStage (runLayers d.layers.modules (colT3 t (fullInC C (t + 1) 0))
          none (d.get_self_attn_padding_mask (colTok t seq)) eo epm (some b)).1),
        (runLayers d.layers.modules (colT3 t (fullInC C (t + 1) 0)) none
          (d.get_self_attn_padding_mask (colTok t seq)) eo epm (some b)).2) := by
  show (d.outStage (d.lnStage (runLayers (d.layers.iter d.training rng)
      (d.inpStage (d.forward_embed fdrop (colTok t seq) (some b)))
      (d.self_attn_mask_of (d.inpStage (d.forward_embed fdrop (colTok t seq) (some b)))
        (some b))
      (d.get_self_attn_padding_mask (colTok t seq)) eo epm (some b)).1),
    (runLayers (d.layers.iter d.training rng)
      (d.inpStage (d.forward_embed fdrop (colTok t seq) (some b)))
      (d.self_attn_mask_of (d.inpStage (d.forward_embed fdrop (colTok t seq) (some b)))
        (some b))
      (d.get_self_attn_padding_mask (colTok t seq)) eo epm (some b)).2) = _
  rw [embed_path_inc d fdrop seq t b C.e1 C.pf C.en1 C.ip C.stepOf C.htrain C.hembed
    C.hposInc C.hnorm C.hinp hb]
  rw [← colT3_full0]
  rw [iter_inference d C.htrain rng]
  rw [self_attn_mask_of_some d C.htrain]
  rfl

/-- Evaluation of a full-pass `forward` call over a non-empty batch under the
contract: the layer loop unrolls to the full-input chain with the causal mask
of the prefix length. -/
theorem forward_full_eval {S : Type} {d : StandardTransformerDecoder S}
    {seq : List (List ℤ)} {eo : Option T3} {epm : Option TensorMask} {b0 : S}
    {inc : S → S} (C : IncrContract S d seq eo epm b0 inc) {T : ℕ}
    (hT : ∀ r ∈ seq, r.length = T) (hne : seq ≠ []) (rng : ℕ → ℚ)
    (fdrop : T3 → T3) (t : ℕ) (ht : t < T) :
    d.forward rng fdrop (takeTok (t + 1) seq) eo epm none =
      (d.outStage (d.lnStage (fullInC C (t + 1) d.layers.modules.length)), none) := by
  show (d.outStage (d.lnStage (runLayers (d.layers.iter d.training rng)
      (d.inpStage (d.forward_embed fdrop (takeTok (t + 1) seq) none))
      (d.self_attn_mask_of (d.inpStage (d.forward_embed fdrop (takeTok (t + 1) seq) none))
        none)
      (d.get_self_attn_padding_mask (takeTok (t + 1) seq)) eo epm none).1),
    (runLayers (d.layers.iter d.training rng)
      (d.inpStage (d.forward_embed fdrop (takeTok (t + 1) seq) none))
      (d.self_attn_mask_of (d.inpStage (d.forward_embed fdrop (takeTok (t + 1) seq) none))
        none)
      (d.get_self_attn_padding_mask (takeTok (t + 1) seq)) eo epm none).2) = _
  rw [embed_path_full d fdrop seq (t + 1) C.e1 C.pf C.en1 C.ip C.htrain C.hembed
    C.hposFull C.hnorm C.hinp]
  rw [iter_inference d C.htrain rng]
  have hmask : d.self_attn_mask_of (full0 d.embed_scale C.e1 C.pf C.en1 C.ip seq (t + 1))
      none = some (C.gm (t + 1)) := by
    unfold StandardTransformerDecoder.self_attn_mask_of
    have hc : (d.training = true ∨ (none : Option S).isNone = true) := Or.inr rfl
    rw [if_pos hc, C.hgen]
    rw [seqLen3_full0 d.embed_scale C.e1 C.pf C.en1 C.ip hT hne (show t + 1 ≤ T by omega)]
  rw [hmask]
  rw [runLayers_none]
  rfl

/-- The driver invariant: before step `t` the bag's step counter is `t` and
every layer's cache covers its input prefix of length `t`. -/
theorem c1_outer {S : Type} {d : StandardTransformerDecoder S} {seq : List (List ℤ)}
    {eo : Option T3} {epm : Option TensorMask} {b0 : S} {inc : S → S}
    (C : IncrContract S d seq eo epm b0 inc) {T : ℕ}
    (hT : ∀ r ∈ seq, r.length = T) (rng : ℕ → ℚ) (fdrop : T3 → T3) :
    ∀ t, t ≤ T →
      C.stepOf (incBagAt d inc rng fdrop seq eo epm b0 t) = t ∧
      ∀ j, j < d.layers.modules.length →
        C.R j (fullInC C t j) (incBagAt d inc rng fdrop seq eo epm b0 t) := by
  intro t
  induction t with
  | zero =>
      intro _
      refine ⟨C.hstep0, ?_⟩
      intro j _
      have hz : fullInC C 0 j = seq.map (fun _ => ([] : List (List ℚ))) := by
        apply eq_nilRows
        · exact fullInC_length C 0 j
        · exact fullInC_rows C hT (Nat.zero_le T)
      rw [hz]
      exact C.hR0 j
  | succ t ih =>
      intro hle
      have ht : t < T := by omega
      obtain ⟨hstep, hinv⟩ := ih (by omega)
      obtain ⟨b', hrun, hstep', hinv'⟩ := c1_inner C hT ht d.layers.modules 0 rfl
        (incBagAt d inc rng fdrop seq eo epm b0 t) hstep
        (fun j hj => absurd hj (by omega))
        (fun j _ hj => hinv j (by simpa using hj))
      have hbag2 : (d.forward rng fdrop (colTok t seq) eo epm
          (some (incBagAt d inc rng fdrop seq eo epm b0 t))).2 = some b' := by
        rw [forward_inc_eval C rng fdrop t _ hstep]
        show (runLayers d.layers.modules (colT3 t (fullInC C (t + 1) 0)) none
          (d.get_self_attn_padding_mask (colTok t seq)) eo epm
          (some (incBagAt d inc rng fdrop seq eo epm b0 t))).2 = some b'
        rw [hrun]
      have hnew : incBagAt d inc rng fdrop seq eo epm b0 (t + 1) = inc b' := by
        show inc (((d.forward rng fdrop (colTok t seq) eo epm
          (some (incBagAt d inc rng fdrop seq eo epm b0 t))).2).getD
            (incBagAt d inc rng fdrop seq eo epm b0 t)) = inc b'
        rw [hbag2]
        rfl
      rw [hnew]
      constructor
      · rw [C.hstepInc, hstep']
      · intro j hj
        exact C.hRinc j _ b' (hinv' j (by simpa using hj))

/-- Each layer of the module list is shape-preserving (membership form of the
contract's indexed shape hypothesis). -/
theorem hshape_mem {S : Type} {d : StandardTransformerDecoder S} {seq : List (List ℤ)}
    {eo : Option T3} {epm : Option TensorMask} {b0 : S} {inc : S → S}
    (C : IncrContract S d seq eo epm b0 inc) :
    ∀ l ∈ d.layers.modules, ∀ (x : T3) (m : Option AttnMask) (pm : Option TensorMask)
      (bag : Option S), (l.fwd x m pm eo epm bag).map List.length = x.map List.length := by
  intro l hl x m pm bag
  rcases List.mem_iff_getElem?.mp hl with ⟨n, hn⟩
  exact C.hshape n l hn x m pm bag

/-- The layer loop maps the empty batch to the empty batch. -/
theorem runLayers_fst_nil {S : Type} (eo : Option T3) (epm : Option TensorMask) :
    ∀ (ls : List (TransformerDecoderLayer S)) (m : Option AttnMask)
      (pm : Option TensorMask) (bag : Option S),
      (∀ l ∈ ls, ∀ (x : T3) (m' : Option AttnMask) (pm' : Option TensorMask)
        (bag' : Option S), (l.fwd x m' pm' eo epm bag').map List.length = x.map List.length) →
      (runLayers ls ([] : T3) m pm eo epm bag).1 = [] := by
  intro ls
  induction ls with
  | nil => intro m pm bag _; rfl
  | cons l ls ih =>
      intro m pm bag hls
      show (runLayers ls (l.fwd [] m pm eo epm bag) m pm eo epm
        (bag.map (l.mutate [] m pm eo epm))).1 = []
      have h0 : l.fwd ([] : T3) m pm eo epm bag = [] := by
        have h1 := hls l (List.mem_cons_self _ _) [] m pm bag
        rw [List.map_nil] at h1
        exact List.map_eq_nil_iff.mp h1
      rw [h0]
      exact ih m pm _ (fun l' h' => hls l' (List.mem_cons_of_mem _ h'))

/-- C1: incremental decoding equivalence.  For every configuration (a decoder
in evaluation mode whose collaborators satisfy the incremental contract `C`)
and every rectangular input batch, running `forward` step-by-step with an
incremental state bag produces, at each step `t`, exactly the last column of
the full-sequence non-incremental `forward` over the prefix of length `t + 1`
(outputs are exact rationals, so equality replaces numeric tolerance). -/
theorem claim_c1_incremental_equivalence {S : Type} (d : StandardTransformerDecoder S)
    (seq : List (List ℤ)) (eo : Option T3) (epm : Option TensorMask) (b0 : S)
    (inc : S → S) (T : ℕ) (hT : ∀ r ∈ seq, r.length = T)
    (C : IncrContract S d seq eo epm b0 inc) (rngF rngI : ℕ → ℚ)
    (fdropF fdropI : T3 → T3) (t : ℕ) (ht : t < T) :
    incOutAt d inc rngI fdropI seq eo epm b0 t =
      colT3 t (fullOutAt d rngF fdropF seq eo epm t) := by
  obtain ⟨hstep, hinv⟩ := c1_outer C hT rngI fdropI t (le_of_lt ht)
  unfold incOutAt
  rw [forward_inc_eval C rngI fdropI t _ hstep]
  show d.outStage (d.lnStage (runLayers d.layers.modules (colT3 t (fullInC C (t + 1) 0))
      none (d.get_self_attn_padding_mask (colTok t seq)) eo epm
      (some (incBagAt d inc rngI fdropI seq eo epm b0 t))).1) = _
  by_cases hne : seq = []
  · have hfull0 : full0 d.embed_scale C.e1 C.pf C.en1 C.ip seq (t + 1) = [] := by
      unfold full0
      exact List.map_eq_nil_iff.mpr hne
    have hnil : fullInC C (t + 1) 0 = [] := hfull0
    rw [hnil]
    show d.outStage (d.lnStage (runLayers d.layers.modules ([] : T3)
      none (d.get_self_attn_padding_mask (colTok t seq)) eo epm
      (some (incBagAt d inc rngI fdropI seq eo epm b0 t))).1) = _
    rw [runLayers_fst_nil eo epm d.layers.modules none
      (d.get_self_attn_padding_mask (colTok t seq)) _ (hshape_mem C)]
    have hfull : fullOutAt d rngF fdropF seq eo epm t = [] := by
      unfold fullOutAt
      show d.outStage (d.lnStage (runLayers (d.layers.iter d.training rngF)
        (d.inpStage (d.forward_embed fdropF (takeTok (t + 1) seq) none))
        (d.self_attn_mask_of
          (d.inpStage (d.forward_embed fdropF (takeTok (t + 1) seq) none)) none)
        (d.get_self_attn_padding_mask (takeTok (t + 1) seq)) eo epm none).1) = []
      rw [embed_path_full d fdropF seq (t + 1) C.e1 C.pf C.en1 C.ip C.htrain C.hembed
        C.hposFull C.hnorm C.hinp]
      rw [hfull0, iter_inference d C.htrain]
      rw [runLayers_fst_nil eo epm d.layers.modules
        (d.self_attn_mask_of ([] : T3) none)
        (d.get_self_attn_padding_mask (takeTok (t + 1) seq)) none (hshape_mem C)]
      rw [C.hln, C.hout]
      rfl
    rw [hfull]
    rw [C.hln, C.hout]
    rfl
  · obtain ⟨b', hrun, hstep', hinv'⟩ := c1_inner C hT ht d.layers.modules 0 rfl
      (incBagAt d inc rngI fdropI seq eo epm b0 t) hstep
      (fun j hj => absurd hj (by omega))
      (fun j _ hj => hinv j (by simpa using hj))
    rw [hrun]
    show d.outStage (d.lnStage (colT3 t (fullInC C (t + 1)
      (0 + d.layers.modules.length)))) = _
    rw [Nat.zero_add]
    unfold fullOutAt
    rw [forward_full_eval C hT hne rngF fdropF t ht]
    show _ = colT3 t (d.outStage (d.lnStage (fullInC C (t + 1) d.layers.modules.length)))
    rw [C.hln (colT3 t (fullInC C (t + 1) d.layers.modules.length)),
      C.hln (fullInC C (t + 1) d.layers.modules.length)]
    rw [C.hout ((colT3 t (fullInC C (t + 1) d.layers.modules.length)).map
      (fun r => r.map C.lnf))]
    rw [C.hout ((fullInC C (t + 1) d.layers.modules.length).map (fun r => r.map C.lnf))]
    rw [colT3_mapVec, colT3_mapVec]

/-- The `t`-th column of a prefix-plus-column concatenation is the column. -/
theorem colT3_appendT3 {x c : T3} {t : ℕ} (hx : ∀ r ∈ x, r.length = t)
    (hc : ∀ r ∈ c, r.length = 1) (hlen : c.length = x.length) :
    colT3 t (appendT3 x c) = c := by
  unfold colT3 appendT3
  induction x generalizing c with
  | nil =>
      cases c with
      | nil => rfl
      | cons rc c' => exact absurd hlen (by simp)
  | cons rx x ih =>
      cases c with
      | nil => exact absurd hlen (by simp)
      | cons rc c' =>
          simp only [List.zipWith_cons_cons, List.map_cons]
          congr 1
          · rw [List.drop_left' (hx rx (List.mem_cons_self _ _))]
            exact List.take_of_length_le (by rw [hc rc (List.mem_cons_self _ _)])
          · exact ih (fun r hr => hx r (List.mem_cons_of_mem _ hr))
              (fun r hr => hc r (List.mem_cons_of_mem _ hr)) (by simpa using hlen)

/-- The per-token embedding used by the C1 witness. -/
def e1c : ℤ → List ℚ := fun tok => [(tok : ℚ)]

/-- The per-position offset used by the C1 witness. -/
def pfc : ℕ → List ℚ → List ℚ := fun j v => v.map (fun q => q + (j : ℚ))

/-- The identity per-vector map used by the C1 witness. -/
def idv : List ℚ → List ℚ := fun v => v

/-- The length-indexed mask family used by the C1 witness. -/
def gmc : ℕ → AttnMask := fun n => [[FVal.fv (n : ℚ)]]

/-- The positional embedding of the C1 witness: full mode applies `pfc` at
each position, incremental mode applies it at the bag's step. -/
def pec : PositionalEmbedding ℕ :=
  { embedding_dim := 1
    run := fun x b =>
      match b with
      | none => x.map (fun r => mapFrom 0 pfc r)
      | some n => x.map (fun r => r.map (pfc n)) }

/-- The identity layer with a no-op cache used by the C1 witness. -/
def idLayer : TransformerDecoderLayer ℕ :=
  { model_dim := 1
    fwd := fun x _ _ _ _ _ => x
    mutate := fun _ _ _ _ _ b => b }

/-- The C1 witness decoder: evaluation mode, all collaborators in contract
shape. -/
def c1dec : StandardTransformerDecoder ℕ :=
  { model_dim := 1
    embed :=
      { embedding_dim := 1
        padding_idx := some 0
        weight_dtype := DType.float32
        run := fun s => s.map (fun r => r.map e1c) }
    embed_scale := 1
    pos_embed := some pec
    embed_norm := some (fun x => x.map (fun r => r.map idv))
    embed_dropout_p := 0
    inp_dim_proj := some { inp_dim := 1, out_dim := 1, apply := fun x => x.map (fun r => r.map idv) }
    self_attn_mask_gen := fun x => gmc (seqLen3 x)
    layers := { modules := [idLayer], drop_p := 0 }
    layer_norm := some (fun x => x.map (fun r => r.map idv))
    out_dim_proj := some { inp_dim := 1, out_dim := 1, apply := fun x => x.map (fun r => r.map idv) }
    training := false }

theorem c1dec_layer_eq {i : ℕ} {l : TransformerDecoderLayer ℕ}
    (hi : c1dec.layers.modules[i]? = some l) : l = idLayer := by
  have h : ([idLayer] : List (TransformerDecoderLayer ℕ))[i]? = some l := hi
  cases i with
  | zero =>
      rw [List.getElem?_cons_zero] at h
      exact (Option.some_inj.mp h).symm
  | succ n =>
      rw [List.getElem?_cons_succ] at h
      exact absurd h (by simp)

/-- The incremental contract instance of the C1 witness. -/
def c1contract : IncrContract ℕ c1dec [[5, 7]] none none 0 Nat.succ :=
  { e1 := e1c
    pf := pfc
    en1 := idv
    ip := idv
    op := idv
    lnf := idv
    gm := gmc
    stepOf := fun b => b
    R := fun _ _ _ => True
    htrain := rfl
    hembed := fun _ => rfl
    hposFull := fun _ => rfl
    hposInc := fun _ _ => rfl
    hnorm := fun _ => rfl
    hinp := fun _ => rfl
    hout := fun _ => rfl
    hln := fun _ => rfl
    hgen := fun _ => rfl
    hstepInc := fun _ => rfl
    hstep0 := rfl
    hR0 := fun _ => trivial
    hstepMut := by
      intro i l hi x m pm b
      rw [c1dec_layer_eq hi]
      rfl
    hframe := fun _ _ _ _ _ _ _ _ _ _ _ => trivial
    hRinc := fun _ _ _ _ => trivial
    hshape := by
      intro i l hi x m pm bag
      rw [c1dec_layer_eq hi]
      rfl
    hcausal := by
      intro i l hi t n x htn hx
      rw [c1dec_layer_eq hi]
      rfl
    hstep := by
      intro i l hi t x c b hR hb hx hc hlen
      rw [c1dec_layer_eq hi]
      exact ⟨(colT3_appendT3 hx hc hlen).symm, trivial⟩ }

/-- Witness for C1: at the concrete decoder, batch `[[5, 7]]` and step 1, the
incremental output equals the last column of the full pass over both
positions. -/
theorem claim_c1_incremental_equivalence_witness :
    incOutAt c1dec Nat.succ (fun _ => 0) id [[5, 7]] none none 0 1 =
      colT3 1 (fullOutAt c1dec (fun _ => 0) id [[5, 7]] none none 1) :=
  claim_c1_incremental_equivalence c1dec [[5, 7]] none none 0 Nat.succ 2
    (by decide) c1contract (fun _ => 0) (fun _ => 0) id id 1 (by decide)
